import Mathlib

/-!
Verification of the FileArco v1 archive format, translated from
src/v1.rs, src/file_data.rs and src/lib.rs.

Modelling conventions:
* Bytes are natural numbers below 256; byte buffers are values of `List Nat`.
* Rust `u64` values are `Nat`; the 8-byte little-endian bincode encoding
  truncates to 64 bits, which is where `% 2 ^ 64` behaviour lives.
* `HashMap<String, Entry>` is an association list whose order is the map's
  iteration order.  Rust's `HashMap` iteration order is unspecified (the
  hasher is randomly seeded), but it is fixed for a given unchanged map
  instance, and the two loops of `Entries::new`, the table serialization and
  the write loop of `FileArco::make` all iterate one unchanged map, hence see
  one and the same order.  Theorems quantify over the input list order, which
  covers every possible iteration order.
* Fallible operations return `Option` or explicit result types; a Rust
  `unwrap` of a failed deserialization is the `panicked` outcome, and a
  `slice::from_raw_parts` reaching past the end of the mapping is the
  `readOutOfBounds` outcome.
-/

namespace FA

/-- Little-endian fixed-width integer encoding used by bincode for `u64`
fields: `k` bytes, least significant first (truncates to `2 ^ (8 * k)`). -/
def leBytes : Nat → Nat → List Nat
  | 0, _ => []
  | k + 1, v => (v % 256) :: leBytes k (v / 256)

/-- Little-endian decoding of a byte list (bincode reading a fixed-width
integer). -/
def leDecode : List Nat → Nat
  | [] => 0
  | b :: bs => b + 256 * leDecode bs

theorem leBytes_length (k v : Nat) : (leBytes k v).length = k := by
  induction k generalizing v with
  | zero => rfl
  | succ k ih => simp [leBytes, ih]

theorem leBytes_lt (k v : Nat) : ∀ b ∈ leBytes k v, b < 256 := by
  induction k generalizing v with
  | zero => simp [leBytes]
  | succ k ih =>
    intro b hb
    simp only [leBytes, List.mem_cons] at hb
    rcases hb with h | h
    · omega
    · exact ih _ _ h

theorem leDecode_leBytes (k v : Nat) : leDecode (leBytes k v) = v % 256 ^ k := by
  induction k generalizing v with
  | zero => simp [leBytes, leDecode, Nat.mod_one]
  | succ k ih =>
    simp only [leBytes, leDecode, ih]
    have h1 : v % (256 * 256 ^ k) / 256 = v / 256 % 256 ^ k :=
      Nat.mod_mul_right_div_self v 256 (256 ^ k)
    have h2 : v % (256 * 256 ^ k) % 256 = v % 256 :=
      Nat.mod_mod_of_dvd v ⟨256 ^ k, rfl⟩
    rw [pow_succ, mul_comm (256 ^ k) 256, ← h1, ← h2]
    omega

theorem leDecode_leBytes_of_lt (k v : Nat) (h : v < 256 ^ k) :
    leDecode (leBytes k v) = v := by
  rw [leDecode_leBytes, Nat.mod_eq_of_lt h]

theorem leDecode_leBytes8 (v : Nat) (h : v < 2 ^ 64) :
    leDecode (leBytes 8 v) = v := by
  apply leDecode_leBytes_of_lt
  norm_num at h ⊢
  exact h

theorem leDecode_inj : ∀ l₁ l₂ : List Nat, l₁.length = l₂.length →
    (∀ b ∈ l₁, b < 256) → (∀ b ∈ l₂, b < 256) →
    leDecode l₁ = leDecode l₂ → l₁ = l₂ := by
  intro l₁
  induction l₁ with
  | nil =>
    intro l₂ hlen _ _ _
    cases l₂ with
    | nil => rfl
    | cons b bs => simp at hlen
  | cons b bs ih =>
    intro l₂ hlen h₁ h₂ hdec
    cases l₂ with
    | nil => simp at hlen
    | cons c cs =>
      simp only [leDecode] at hdec
      have hb : b < 256 := h₁ b (by simp)
      have hc : c < 256 := h₂ c (by simp)
      have hbc : b = c := by omega
      have hrest : leDecode bs = leDecode cs := by omega
      have := ih cs (by simpa using hlen) (fun x hx => h₁ x (by simp [hx]))
        (fun x hx => h₂ x (by simp [hx])) hrest
      rw [hbc, this]

/-- Reflected (bit-reversed) representation of the CRC-64/ISO polynomial, the
value of the external `crc` crate's `crc64::ISO` constant. -/
def CRC64_ISO_POLY : Nat := 0xd800000000000000

/-- One bit-step of the reflected CRC-64 computation: shift out the low bit,
folding in the polynomial when that bit was set. -/
def crcStep (s : Nat) : Nat :=
  (s >>> 1) ^^^ (if s.testBit 0 then CRC64_ISO_POLY else 0)

/-- Absorb one message byte into the CRC state (eight bit-steps). -/
def crcByte (s b : Nat) : Nat := crcStep^[8] (s ^^^ b)

/-- Absorb a byte list into the CRC state. -/
def crcAbsorb (s : Nat) (m : List Nat) : Nat := m.foldl crcByte s

/-- Modelled from the spec: all checksums are CRC-64 with the ISO polynomial
over raw bytes (spec section 6).  The implementation delegates to the
external `crc` crate's `crc64::checksum_iso`, whose `update` function applies
an initial and a final complement around a reflected table computation that
is byte-for-byte equivalent to `crcByte`. -/
def crc64 (m : List Nat) : Nat := crcAbsorb (2 ^ 64 - 1) m ^^^ (2 ^ 64 - 1)

theorem xor_left_cancel {a b c : Nat} (h : a ^^^ b = a ^^^ c) : b = c := by
  have h2 : a ^^^ (a ^^^ b) = a ^^^ (a ^^^ c) := by rw [h]
  rwa [← Nat.xor_assoc, ← Nat.xor_assoc, Nat.xor_self, Nat.zero_xor,
    Nat.zero_xor] at h2

theorem xor_right_cancel {a b c : Nat} (h : b ^^^ a = c ^^^ a) : b = c := by
  rw [Nat.xor_comm b a, Nat.xor_comm c a] at h
  exact xor_left_cancel h

theorem ne_xor_of_ne_zero {x e : Nat} (he : e ≠ 0) : x ^^^ e ≠ x := by
  intro h
  apply he
  have : x ^^^ e = x ^^^ 0 := by rw [Nat.xor_zero, h]
  exact xor_left_cancel this

theorem xor_comm_left (a b c : Nat) : a ^^^ (b ^^^ c) = b ^^^ (a ^^^ c) := by
  rw [← Nat.xor_assoc, Nat.xor_comm a b, Nat.xor_assoc]

theorem xor_xor_cancel_left (a b : Nat) : a ^^^ (a ^^^ b) = b := by
  rw [← Nat.xor_assoc, Nat.xor_self, Nat.zero_xor]

theorem shiftRight_xor (a b k : Nat) : (a ^^^ b) >>> k = (a >>> k) ^^^ (b >>> k) := by
  apply Nat.eq_of_testBit_eq
  intro i
  simp [Nat.testBit_shiftRight, Nat.testBit_xor]

theorem crcStep_lt {s : Nat} (h : s < 2 ^ 64) : crcStep s < 2 ^ 64 := by
  have h1 : s >>> 1 < 2 ^ 64 := by
    rw [Nat.shiftRight_one]
    omega
  rw [crcStep]
  split
  · exact Nat.xor_lt_two_pow h1 (by norm_num [CRC64_ISO_POLY])
  · rw [Nat.xor_zero]; exact h1

theorem crcStep_zero : crcStep 0 = 0 := by decide

theorem crcStep_xor (a b : Nat) : crcStep (a ^^^ b) = crcStep a ^^^ crcStep b := by
  simp only [crcStep, Nat.testBit_xor, shiftRight_xor]
  rcases ha : a.testBit 0 with _ | _ <;> rcases hb : b.testBit 0 with _ | _ <;>
    simp [Nat.xor_assoc, Nat.xor_comm, xor_comm_left, Nat.xor_self,
      Nat.xor_zero, Nat.zero_xor, xor_xor_cancel_left]

theorem shiftRight_one_testBit63 {x : Nat} (hx : x < 2 ^ 64) :
    (x >>> 1).testBit 63 = false := by
  rw [Nat.testBit_shiftRight]
  exact Nat.testBit_lt_two_pow (by norm_num; omega)

theorem crcStep_testBit63 {s : Nat} (hs : s < 2 ^ 64) :
    (crcStep s).testBit 63 = s.testBit 0 := by
  have hpoly : CRC64_ISO_POLY.testBit 63 = true := by decide
  rw [crcStep]
  rcases ht : s.testBit 0 with _ | _
  · simp [Nat.testBit_xor, shiftRight_one_testBit63 hs]
  · simp [Nat.testBit_xor, shiftRight_one_testBit63 hs, hpoly]

theorem crcStep_inj {a b : Nat} (ha : a < 2 ^ 64) (hb : b < 2 ^ 64)
    (h : crcStep a = crcStep b) : a = b := by
  have hbit : a.testBit 0 = b.testBit 0 := by
    rw [← crcStep_testBit63 ha, ← crcStep_testBit63 hb, h]
  rw [crcStep, crcStep, hbit] at h
  have hdiv : a >>> 1 = b >>> 1 := xor_right_cancel h
  rw [Nat.shiftRight_one, Nat.shiftRight_one] at hdiv
  have hm : a % 2 = b % 2 := by
    have := congrArg (fun u : Bool => if u then 1 else 0) hbit
    simp only [Nat.testBit_zero] at this
    rcases Nat.mod_two_eq_zero_or_one a with h2 | h2 <;>
      rcases Nat.mod_two_eq_zero_or_one b with h3 | h3 <;> simp [h2, h3] at this ⊢
  omega

theorem crcStep_iterate_lt {s : Nat} (k : Nat) (h : s < 2 ^ 64) :
    crcStep^[k] s < 2 ^ 64 := by
  induction k generalizing s with
  | zero => simpa using h
  | succ k ih =>
    rw [Function.iterate_succ_apply]
    exact ih (crcStep_lt h)

theorem crcStep_iterate_xor (k a b : Nat) :
    crcStep^[k] (a ^^^ b) = crcStep^[k] a ^^^ crcStep^[k] b := by
  induction k generalizing a b with
  | zero => simp
  | succ k ih =>
    simp only [Function.iterate_succ_apply, crcStep_xor, ih]

theorem crcStep_iterate_zero (k : Nat) : crcStep^[k] 0 = 0 := by
  induction k with
  | zero => rfl
  | succ k ih => rw [Function.iterate_succ_apply, crcStep_zero, ih]

theorem crcStep_iterate_ne_zero {d : Nat} (k : Nat) (hd : d ≠ 0)
    (hlt : d < 2 ^ 64) : crcStep^[k] d ≠ 0 := by
  induction k generalizing d with
  | zero => simpa using hd
  | succ k ih =>
    rw [Function.iterate_succ_apply]
    exact ih (fun h0 => hd (crcStep_inj hlt (by norm_num) (by
      rw [h0, crcStep_zero]))) (crcStep_lt hlt)

theorem crcByte_xor_state (s d b : Nat) :
    crcByte (s ^^^ d) b = crcByte s b ^^^ crcStep^[8] d := by
  have hx : s ^^^ d ^^^ b = s ^^^ b ^^^ d := by
    simp [Nat.xor_assoc, Nat.xor_comm, xor_comm_left]
  rw [crcByte, hx, crcStep_iterate_xor, crcByte]

theorem crcAbsorb_append (s : Nat) (l₁ l₂ : List Nat) :
    crcAbsorb s (l₁ ++ l₂) = crcAbsorb (crcAbsorb s l₁) l₂ := by
  simp [crcAbsorb, List.foldl_append]

theorem crcAbsorb_xor_state (m : List Nat) (s d : Nat) :
    crcAbsorb (s ^^^ d) m = crcAbsorb s m ^^^ crcStep^[8 * m.length] d := by
  induction m generalizing s d with
  | nil => simp [crcAbsorb]
  | cons c m ih =>
    have hstep : crcAbsorb (s ^^^ d) (c :: m) = crcAbsorb (crcByte s c ^^^ crcStep^[8] d) m := by
      simp only [crcAbsorb, List.foldl_cons, crcByte_xor_state]
    rw [hstep, ih]
    have h2 : crcAbsorb (crcByte s c) m = crcAbsorb s (c :: m) := rfl
    have hlen : 8 * (c :: m).length = 8 * m.length + 8 := by
      simp [List.length_cons]
      ring
    rw [h2, ← Function.iterate_add_apply, hlen]

theorem crcAbsorb_flip_ne (pre suf : List Nat) {b bq : Nat} (s : Nat)
    (hb : b < 2 ^ 64) (hbq : bq < 2 ^ 64) (hne : b ≠ bq) :
    crcAbsorb s (pre ++ b :: suf) ≠ crcAbsorb s (pre ++ bq :: suf) := by
  have hd : b ^^^ bq ≠ 0 := fun h => hne (Nat.xor_eq_zero.mp h)
  have hdlt : b ^^^ bq < 2 ^ 64 := Nat.xor_lt_two_pow hb hbq
  set t := crcAbsorb s pre with ht
  have h1 : crcAbsorb s (pre ++ b :: suf) = crcAbsorb (crcByte t b) suf := by
    rw [crcAbsorb_append]; rfl
  have hb2 : crcByte t bq = crcByte t b ^^^ crcStep^[8] (b ^^^ bq) := by
    have hx : t ^^^ bq = (t ^^^ b) ^^^ (b ^^^ bq) := by
      simp [Nat.xor_assoc, Nat.xor_comm, xor_comm_left, Nat.xor_self,
        Nat.xor_zero, Nat.zero_xor, xor_xor_cancel_left]
    rw [crcByte, hx, crcStep_iterate_xor, crcByte]
  have h2 : crcAbsorb s (pre ++ bq :: suf) =
      crcAbsorb (crcByte t b) suf ^^^ crcStep^[8 * suf.length] (crcStep^[8] (b ^^^ bq)) := by
    rw [crcAbsorb_append]
    show crcAbsorb (crcByte t bq) suf = _
    rw [hb2, crcAbsorb_xor_state]
  rw [h1, h2, ← Function.iterate_add_apply]
  have hnz : crcStep^[8 * suf.length + 8] (b ^^^ bq) ≠ 0 :=
    crcStep_iterate_ne_zero _ hd hdlt
  exact Ne.symm (ne_xor_of_ne_zero hnz)

theorem crc64_flip_ne (pre suf : List Nat) {b bq : Nat}
    (hb : b < 2 ^ 64) (hbq : bq < 2 ^ 64) (hne : b ≠ bq) :
    crc64 (pre ++ b :: suf) ≠ crc64 (pre ++ bq :: suf) := by
  intro h
  exact crcAbsorb_flip_ne pre suf _ hb hbq hne (xor_right_cancel h)

theorem crcAbsorb_lt {m : List Nat} {s : Nat} (hs : s < 2 ^ 64)
    (hm : ∀ b ∈ m, b < 2 ^ 64) : crcAbsorb s m < 2 ^ 64 := by
  induction m generalizing s with
  | nil => simpa [crcAbsorb] using hs
  | cons c m ih =>
    have hc : c < 2 ^ 64 := hm c (by simp)
    have : crcByte s c < 2 ^ 64 :=
      crcStep_iterate_lt 8 (Nat.xor_lt_two_pow hs hc)
    exact ih this (fun b hb => hm b (by simp [hb]))

theorem crc64_lt {m : List Nat} (hm : ∀ b ∈ m, b < 2 ^ 64) :
    crc64 m < 2 ^ 64 := by
  exact Nat.xor_lt_two_pow (crcAbsorb_lt (by norm_num) hm) (by norm_num)

/-! ## Alignment utility (src/v1.rs:620-632) -/

/-- Rust `get_aligned_length` (src/v1.rs:626-632): round `length` up with the
page-size mask, `(length + (page_size - 1)) & !(page_size - 1)`; the `u64`
complement of `page_size - 1` is `2 ^ 64 - page_size`.  The Rust function
reads the page size from the OS capability `page_size::get`; it is passed
here as the first argument. -/
def get_aligned_length (page_size length : Nat) : Nat :=
  (length + (page_size - 1)) &&& (2 ^ 64 - page_size)

/-- The spec's `align_up(n, page_size)` (section 4.1), in its arithmetic
form: round up to the next multiple. -/
def alignUp (page_size n : Nat) : Nat := (n + page_size - 1) / page_size * page_size

/-! ## Data model (src/v1.rs, src/file_data.rs, src/lib.rs) -/

/-- Per-file record in the entries table (src/v1.rs:611-618). -/
structure Entry where
  offset : Nat
  length : Nat
  aligned_length : Nat
  checksum : Nat
deriving DecidableEq

/-- Archive header (src/v1.rs:516-526). -/
structure Header where
  id : List Nat
  version_number : Nat
  file_length : Nat
  file_offset : Nat
  page_size : Nat
  entries_length : Nat
  entries_checksum : Nat
deriving DecidableEq

/-- The 8-byte magic constant, the bytes of the string FILEARCO
(src/lib.rs:49). -/
def FILEARCO_ID : List Nat := [70, 73, 76, 69, 65, 82, 67, 79]

/-- src/v1.rs:43. -/
def VERSION_NUMBER : Nat := 1

/-- Per-file metadata produced by the directory enumerator
(src/file_data.rs:167-173): relative path (as UTF-8 bytes), byte length,
and CRC-64/ISO checksum of the contents. -/
structure FileDatum where
  name : List Nat
  length : Nat
  checksum : Nat
deriving DecidableEq

/-- bincode encoding of `Header`: the `[u8; 8]` identifier as raw bytes
followed by the six fixed-width `u64` fields in declaration order. -/
def serializeHeader (h : Header) : List Nat :=
  h.id ++ leBytes 8 h.version_number ++ leBytes 8 h.file_length ++
    leBytes 8 h.file_offset ++ leBytes 8 h.page_size ++
    leBytes 8 h.entries_length ++ leBytes 8 h.entries_checksum

/-- `Header::new` (src/v1.rs:528-558): serialize a test header to learn the
encoded header length, then compute `file_offset` and `file_length`.  Note
the source computes `file_offset` from `header_length + entries_length`
only; the 8 header-checksum bytes are not added (see C3). -/
def Header.new (page_size entries_length file_contents_length entries_checksum : Nat) :
    Header :=
  let test_header : Header :=
    { id := FILEARCO_ID, version_number := VERSION_NUMBER, file_length := 0,
      file_offset := 0, page_size := page_size, entries_length := entries_length,
      entries_checksum := entries_checksum }
  let header_length := (serializeHeader test_header).length
  let file_offset := get_aligned_length page_size (header_length + entries_length)
  { id := FILEARCO_ID, version_number := VERSION_NUMBER,
    file_length := file_offset + file_contents_length, file_offset := file_offset,
    page_size := page_size, entries_length := entries_length,
    entries_checksum := entries_checksum }

/-- The entries table (src/v1.rs:561-564): `HashMap<String, Entry>` as an
association list in the map's iteration order. -/
structure Entries where
  files : List (List Nat × Entry)
deriving DecidableEq

/-- Rust `HashMap::insert`: an existing key keeps its place and gets the
new value; a new key is added. -/
def hashInsert : List (List Nat × Entry) → List Nat → Entry → List (List Nat × Entry)
  | [], k, v => [(k, v)]
  | (k1, v1) :: rest, k, v =>
    if k1 = k then (k, v) :: rest else (k1, v1) :: hashInsert rest k v

/-- First loop of `Entries::new` (src/v1.rs:568-581): build the map with all
offsets zero; a duplicated path silently overwrites the earlier entry. -/
def insertLoop (page_size : Nat) (data : List FileDatum) : List (List Nat × Entry) :=
  data.foldl
    (fun files datum => hashInsert files datum.name
      { offset := 0, length := datum.length,
        aligned_length := get_aligned_length page_size datum.length,
        checksum := datum.checksum })
    []

/-- Second loop of `Entries::new` (src/v1.rs:583-590): in iteration order,
set each entry's offset to the running total of the aligned lengths. -/
def assignOffsets : List (List Nat × Entry) → Nat → List (List Nat × Entry)
  | [], _ => []
  | (k, v) :: rest, offset =>
    (k, { v with offset := offset }) :: assignOffsets rest (offset + v.aligned_length)

/-- `Entries::new` (src/v1.rs:567-595). -/
def Entries.new (page_size : Nat) (data : List FileDatum) : Entries :=
  { files := assignOffsets (insertLoop page_size data) 0 }

/-- `Entries::total_aligned_length` (src/v1.rs:597-608); the source iterates
the keys and looks each one up, which visits exactly the map's pairs in
iteration order. -/
def Entries.total_aligned_length (e : Entries) : Nat :=
  e.files.foldl (fun total kv => total + kv.2.aligned_length) 0

/-! ## bincode serialization of the entries table -/

/-- bincode encoding of a Rust `String`: u64 byte length, then the UTF-8
bytes. -/
def serializeString (s : List Nat) : List Nat := leBytes 8 s.length ++ s

/-- bincode encoding of `Entry`: four fixed-width u64 fields. -/
def serializeEntry (e : Entry) : List Nat :=
  leBytes 8 e.offset ++ leBytes 8 e.length ++ leBytes 8 e.aligned_length ++
    leBytes 8 e.checksum

/-- bincode encoding of `Entries`: its single `HashMap` field, a u64 pair
count followed by the key-value pairs in iteration order. -/
def serializeEntries (e : Entries) : List Nat :=
  leBytes 8 e.files.length ++
    (e.files.map fun kv => serializeString kv.1 ++ serializeEntry kv.2).flatten

/-- Is `b` a UTF-8 continuation byte? -/
def utf8Cont (b : Nat) : Bool := 128 ≤ b && b ≤ 191

/-- UTF-8 validity of a byte list, as checked by Rust `str::from_utf8` while
bincode deserializes a `String` (RFC 3629 ranges; surrogates and overlong
forms excluded). -/
def validUtf8 : List Nat → Bool
  | [] => true
  | b :: bs =>
    if b ≤ 127 then validUtf8 bs
    else if 194 ≤ b && b ≤ 223 then
      match bs with
      | c1 :: rest => utf8Cont c1 && validUtf8 rest
      | [] => false
    else if b = 224 then
      match bs with
      | c1 :: c2 :: rest => (160 ≤ c1 && c1 ≤ 191) && utf8Cont c2 && validUtf8 rest
      | _ => false
    else if (225 ≤ b && b ≤ 236) || b = 238 || b = 239 then
      match bs with
      | c1 :: c2 :: rest => utf8Cont c1 && utf8Cont c2 && validUtf8 rest
      | _ => false
    else if b = 237 then
      match bs with
      | c1 :: c2 :: rest => (128 ≤ c1 && c1 ≤ 159) && utf8Cont c2 && validUtf8 rest
      | _ => false
    else if b = 240 then
      match bs with
      | c1 :: c2 :: c3 :: rest =>
        (144 ≤ c1 && c1 ≤ 191) && utf8Cont c2 && utf8Cont c3 && validUtf8 rest
      | _ => false
    else if 241 ≤ b && b ≤ 243 then
      match bs with
      | c1 :: c2 :: c3 :: rest =>
        utf8Cont c1 && utf8Cont c2 && utf8Cont c3 && validUtf8 rest
      | _ => false
    else if b = 244 then
      match bs with
      | c1 :: c2 :: c3 :: rest =>
        (128 ≤ c1 && c1 ≤ 143) && utf8Cont c2 && utf8Cont c3 && validUtf8 rest
      | _ => false
    else false

/-- Read a fixed-width u64 (bincode), failing when fewer than 8 bytes
remain. -/
def readU64 (bs : List Nat) : Option (Nat × List Nat) :=
  if 8 ≤ bs.length then some (leDecode (bs.take 8), bs.drop 8) else none

/-- Read a bincode `String`: u64 length, that many bytes, and the
`str::from_utf8` validity check. -/
def readString (bs : List Nat) : Option (List Nat × List Nat) :=
  match readU64 bs with
  | none => none
  | some (n, rest) =>
    if n ≤ rest.length then
      if validUtf8 (rest.take n) then some (rest.take n, rest.drop n) else none
    else none

/-- Read a bincode `Entry`: four fixed-width u64 fields. -/
def readEntry (bs : List Nat) : Option (Entry × List Nat) :=
  match readU64 bs with
  | none => none
  | some (o, bs1) =>
  match readU64 bs1 with
  | none => none
  | some (l, bs2) =>
  match readU64 bs2 with
  | none => none
  | some (a, bs3) =>
  match readU64 bs3 with
  | none => none
  | some (c, bs4) =>
    some ({ offset := o, length := l, aligned_length := a, checksum := c }, bs4)

/-- Read `n` key-value pairs of the serialized `HashMap`. -/
def readPairs : Nat → List Nat → Option (List (List Nat × Entry) × List Nat)
  | 0, bs => some ([], bs)
  | n + 1, bs =>
    match readString bs with
    | none => none
    | some (name, bs1) =>
    match readEntry bs1 with
    | none => none
    | some (e, bs2) =>
    match readPairs n bs2 with
    | none => none
    | some (ps, bs3) => some ((name, e) :: ps, bs3)

/-- bincode deserialization of `Entries` from a byte slice: u64 pair count,
then the pairs.  Trailing bytes are ignored, as `bincode::deserialize`
does. -/
def deserializeEntries (bs : List Nat) : Option Entries :=
  match readU64 bs with
  | none => none
  | some (n, rest) =>
    match readPairs n rest with
    | none => none
    | some (ps, _) => some { files := ps }

/-- bincode deserialization of `Header` from the first 56 bytes of a slice.
All fields are fixed-width, so it cannot fail once 56 bytes are present;
`FileArco::new` only calls it after its size check. -/
def deserializeHeader (bs : List Nat) : Header :=
  { id := bs.take 8
    version_number := leDecode ((bs.drop 8).take 8)
    file_length := leDecode ((bs.drop 16).take 8)
    file_offset := leDecode ((bs.drop 24).take 8)
    page_size := leDecode ((bs.drop 32).take 8)
    entries_length := leDecode ((bs.drop 40).take 8)
    entries_checksum := leDecode ((bs.drop 48).take 8) }

/-! ## Archive writer (src/v1.rs:230-280) -/

/-- The input of `FileArco::make`, a source directory view: for each file its
archive path and its content bytes, in the order the entries `HashMap`
happens to iterate them.  The `FileDatum` metadata is derived the way the
enumerator `file_data::get` derives it (src/file_data.rs:55-85): length and
CRC-64 checksum of the very contents. -/
def datumOf (nc : List Nat × List Nat) : FileDatum :=
  { name := nc.1, length := nc.2.length, checksum := crc64 nc.2 }

inductive MakeResult
  | ok (bytes : List Nat)
  | panicked
deriving DecidableEq

/-- `FileArco::make` (src/v1.rs:230-280), with the output sink's contents as
the result.  `panicked` models the `usize` underflow in
`let padding_length = (header.file_offset as usize) - start_length`
(src/v1.rs:259), which panics in a debug build and makes `vec![0u8; ...]`
abort in a release build.  The write loop reads each file back from disk;
its bytes are the contents recorded in `items` (the directory is
unchanged), found by path. -/
def FileArco.make (page_size : Nat) (items : List (List Nat × List Nat)) : MakeResult :=
  let entries := Entries.new page_size (items.map datumOf)
  let entries_encoded := serializeEntries entries
  let header := Header.new page_size entries_encoded.length
    entries.total_aligned_length (crc64 entries_encoded)
  let header_encoded := serializeHeader header
  let header_checksum_encoded := leBytes 8 (crc64 header_encoded)
  let start_length := header_encoded.length + header_checksum_encoded.length +
    entries_encoded.length
  if start_length ≤ header.file_offset then
    MakeResult.ok
      (header_encoded ++ header_checksum_encoded ++ entries_encoded ++
        List.replicate (header.file_offset - start_length) 0 ++
        (entries.files.map fun kv =>
          let buffer := (items.lookup kv.1).getD []
          buffer ++ List.replicate (kv.2.aligned_length - kv.2.length) 0).flatten)
  else MakeResult.panicked

/-! ## Archive reader (src/v1.rs:68-151) -/

/-- The shared archive state (`Inner`, src/v1.rs:509-514); the memory
mapping is the archive file's byte content. -/
structure Inner where
  file_offset : Nat
  page_size : Nat
  entries : Entries
  map : List Nat
deriving DecidableEq

/-- src/v1.rs:425-441. -/
inductive FileArcoV1Error
  | CorruptedEntriesTable
  | CorruptedHeader
  | FileTooSmall
  | FileTruncated
  | NotArchive
  | NotV1Archive
  | Other
deriving DecidableEq

/-- Outcome of `FileArco::new`: a typed error, or `panicked` for the
`.unwrap()` of a failed entries-table deserialization (src/v1.rs:133), or
`readOutOfBounds` for the undefined behaviour of building the entries slice
past the end of the mapping (src/v1.rs:129-130, no bound check exists). -/
inductive OpenResult
  | ok (inner : Inner)
  | err (e : FileArcoV1Error)
  | panicked
  | readOutOfBounds
deriving DecidableEq

/-- `FileArco::new` (src/v1.rs:68-151).  `sys_page_size` is the reading
system's page size (used only to build the test header whose encoded length
is measured); `map` is the memory-mapped file. -/
def FileArco.new (sys_page_size : Nat) (map : List Nat) : OpenResult :=
  let test_header := Header.new sys_page_size 0 0 0
  let test_header_encoded := serializeHeader test_header
  let checksum_size := 8
  if map.length < test_header_encoded.length + checksum_size then
    .err .FileTooSmall
  else
    let header_bytes := map.take test_header_encoded.length
    let header := deserializeHeader header_bytes
    let checksum1 := crc64 header_bytes
    let header_checksum := leDecode ((map.drop test_header_encoded.length).take checksum_size)
    if header.id ≠ FILEARCO_ID then .err .NotArchive
    else if header.version_number ≠ 1 then .err .NotV1Archive
    else if checksum1 ≠ header_checksum then .err .CorruptedHeader
    else if map.length < header.file_length then .err .FileTruncated
    else if map.length < checksum_size + test_header_encoded.length + header.entries_length then
      .readOutOfBounds
    else
      let sl := (map.drop (checksum_size + test_header_encoded.length)).take header.entries_length
      (deserializeEntries sl).elim
        .panicked
        (fun entries =>
          if crc64 sl ≠ header.entries_checksum then .err .CorruptedEntriesTable
          else .ok { file_offset := header.file_offset, page_size := header.page_size,
                     entries := entries, map := map })

/-- A borrowed view of one archived file (src/v1.rs:286-294); `address` is
the view's offset into the mapping (mapping base + file_offset +
entry.offset) and `inner` the `Arc<Inner>` share that keeps the mapping
alive. -/
structure FileRef where
  address : Nat
  length : Nat
  aligned_length : Nat
  checksum : Nat
  inner : Inner
deriving DecidableEq

/-- `FileArco::get` (src/v1.rs:171-187), on the archive's shared state. -/
def FileArco.get (inner : Inner) (file_path : List Nat) : Option FileRef :=
  (inner.entries.files.lookup file_path).map fun entry =>
    { address := inner.file_offset + entry.offset, length := entry.length,
      aligned_length := entry.aligned_length, checksum := entry.checksum,
      inner := inner }

/-- `FileRef::as_slice` (src/v1.rs:338-342): the `length` bytes of the
mapping starting at the view's address.  (For the raw-parts slice to be
defined the range must lie inside the mapping; `get` does not check that,
see C6.) -/
def FileRef.as_slice (f : FileRef) : List Nat :=
  (f.inner.map.drop f.address).take f.length

/-- `FileRef::is_valid` (src/v1.rs:313-318). -/
def FileRef.is_valid (f : FileRef) : Bool :=
  f.checksum == crc64 f.as_slice

/-! ## Alignment lemmas -/

theorem and_two_pow_sub_one (a m : Nat) : a &&& (2 ^ m - 1) = a % 2 ^ m := by
  apply Nat.eq_of_testBit_eq
  intro i
  rw [Nat.testBit_and, Nat.testBit_two_pow_sub_one, Nat.testBit_mod_two_pow,
    Bool.and_comm]

theorem and_two_pow_mul (a k m : Nat) :
    a &&& (2 ^ k * m) = 2 ^ k * ((a >>> k) &&& m) := by
  apply Nat.eq_of_testBit_eq
  intro i
  rw [mul_comm ((2:Nat) ^ k) m, ← Nat.shiftLeft_eq,
    mul_comm ((2:Nat) ^ k) _, ← Nat.shiftLeft_eq,
    Nat.testBit_and, Nat.testBit_shiftLeft, Nat.testBit_shiftLeft,
    Nat.testBit_and, Nat.testBit_shiftRight]
  by_cases h : k ≤ i
  · have hik : k + (i - k) = i := by omega
    simp [h, hik]
  · simp [h]

theorem two_pow_sub_two_pow {k : Nat} (hk : k ≤ 64) :
    2 ^ 64 - 2 ^ k = 2 ^ k * (2 ^ (64 - k) - 1) := by
  have h : (2:Nat) ^ k * 2 ^ (64 - k) = 2 ^ 64 := by
    rw [← pow_add]
    congr 1
    omega
  have h2 := Nat.mul_pred (2 ^ k) (2 ^ (64 - k))
  rw [Nat.pred_eq_sub_one, h] at h2
  omega

theorem get_aligned_length_dvd {k : Nat} (n : Nat) (hk : k ≤ 64) :
    2 ^ k ∣ get_aligned_length (2 ^ k) n := by
  rw [get_aligned_length, two_pow_sub_two_pow hk, and_two_pow_mul]
  exact dvd_mul_right _ _

theorem get_aligned_length_eq_alignUp {k n : Nat} (hk : k ≤ 64)
    (hn : n + 2 ^ k ≤ 2 ^ 64) :
    get_aligned_length (2 ^ k) n = alignUp (2 ^ k) n := by
  have hp : (0:Nat) < 2 ^ k := Nat.pow_pos (by norm_num)
  have hxlt : n + (2 ^ k - 1) < 2 ^ 64 := by omega
  rw [get_aligned_length, two_pow_sub_two_pow hk, and_two_pow_mul,
    and_two_pow_sub_one]
  have hdiv : (n + (2 ^ k - 1)) >>> k = (n + (2 ^ k - 1)) / 2 ^ k :=
    Nat.shiftRight_eq_div_pow _ k
  have hlt : (n + (2 ^ k - 1)) / 2 ^ k < 2 ^ (64 - k) := by
    rw [Nat.div_lt_iff_lt_mul hp]
    calc n + (2 ^ k - 1) < 2 ^ 64 := hxlt
    _ = 2 ^ (64 - k) * 2 ^ k := by rw [← pow_add]; congr 1; omega
  rw [hdiv, Nat.mod_eq_of_lt hlt, alignUp, mul_comm]
  have hxx : n + 2 ^ k - 1 = n + (2 ^ k - 1) := by omega
  rw [hxx]

theorem le_alignUp {p : Nat} (n : Nat) (hp : 0 < p) : n ≤ alignUp p n := by
  rw [alignUp]
  have h1 := Nat.div_add_mod (n + p - 1) p
  have h2 : (n + p - 1) % p < p := Nat.mod_lt _ hp
  have h3 : (n + p - 1) / p * p = p * ((n + p - 1) / p) := by ring
  omega

theorem alignUp_le {p : Nat} (n : Nat) (hp : 0 < p) : alignUp p n ≤ n + (p - 1) := by
  rw [alignUp]
  have h1 := Nat.div_add_mod (n + p - 1) p
  have h3 : (n + p - 1) / p * p = p * ((n + p - 1) / p) := by ring
  omega

theorem dvd_alignUp (p n : Nat) : p ∣ alignUp p n := by
  rw [alignUp]
  exact dvd_mul_left p _

/-! ## Serializer lemmas -/

theorem serializeHeader_length (h : Header) (hid : h.id.length = 8) :
    (serializeHeader h).length = 56 := by
  simp [serializeHeader, leBytes_length, hid]

theorem serializeHeader_lt (h : Header) (hid : ∀ b ∈ h.id, b < 256) :
    ∀ b ∈ serializeHeader h, b < 256 := by
  intro b hb
  simp only [serializeHeader, List.mem_append] at hb
  rcases hb with ((((((hb | hb) | hb) | hb) | hb) | hb) | hb)
  exacts [hid b hb, leBytes_lt _ _ b hb, leBytes_lt _ _ b hb, leBytes_lt _ _ b hb,
    leBytes_lt _ _ b hb, leBytes_lt _ _ b hb, leBytes_lt _ _ b hb]

theorem Header.new_def (ps el fcl ec : Nat) :
    Header.new ps el fcl ec =
      { id := FILEARCO_ID, version_number := VERSION_NUMBER,
        file_length := get_aligned_length ps (56 + el) + fcl,
        file_offset := get_aligned_length ps (56 + el),
        page_size := ps, entries_length := el, entries_checksum := ec } := by
  have h56 : (serializeHeader
      { id := FILEARCO_ID, version_number := VERSION_NUMBER, file_length := 0,
        file_offset := 0, page_size := ps, entries_length := el,
        entries_checksum := ec }).length = 56 := serializeHeader_length _ rfl
  simp [Header.new, h56]

theorem serializeString_length (s : List Nat) :
    (serializeString s).length = 8 + s.length := by
  simp [serializeString, leBytes_length]

theorem serializeEntry_length (e : Entry) : (serializeEntry e).length = 32 := by
  simp [serializeEntry, leBytes_length]

theorem serializeEntries_length (e : Entries) :
    (serializeEntries e).length = 8 + (e.files.map fun kv => 40 + kv.1.length).sum := by
  simp only [serializeEntries, List.length_append, leBytes_length,
    List.length_flatten, List.map_map]
  congr 1
  apply congrArg
  apply List.map_congr_left
  intro kv _
  simp [Function.comp, List.length_append, serializeString_length, serializeEntry_length]
  omega

theorem serializeString_lt (s : List Nat) (hs : ∀ b ∈ s, b < 256) :
    ∀ b ∈ serializeString s, b < 256 := by
  intro b hb
  rcases List.mem_append.mp hb with h | h
  · exact leBytes_lt _ _ b h
  · exact hs b h

theorem serializeEntry_lt (e : Entry) : ∀ b ∈ serializeEntry e, b < 256 := by
  intro b hb
  simp only [serializeEntry, List.mem_append] at hb
  rcases hb with ((hb | hb) | hb) | hb <;> exact leBytes_lt _ _ b hb

theorem serializeEntries_lt (e : Entries)
    (hn : ∀ kv ∈ e.files, ∀ b ∈ kv.1, b < 256) :
    ∀ b ∈ serializeEntries e, b < 256 := by
  intro b hb
  rcases List.mem_append.mp hb with h | h
  · exact leBytes_lt _ _ b h
  · rcases List.mem_flatten.mp h with ⟨block, hblock, hbmem⟩
    rcases List.mem_map.mp hblock with ⟨kv, hkv, rfl⟩
    rcases List.mem_append.mp hbmem with h2 | h2
    · exact serializeString_lt _ (hn kv hkv) b h2
    · exact serializeEntry_lt _ b h2

/-! ## Builder lemmas -/

theorem hashInsert_of_forall_ne (m : List (List Nat × Entry)) (k : List Nat)
    (v : Entry) (h : ∀ kv ∈ m, kv.1 ≠ k) : hashInsert m k v = m ++ [(k, v)] := by
  induction m with
  | nil => rfl
  | cons kv rest ih =>
    obtain ⟨k1, v1⟩ := kv
    have hne : k1 ≠ k := h (k1, v1) (by simp)
    simp only [hashInsert, if_neg hne, List.cons_append]
    rw [ih (fun kv hkv => h kv (by simp [hkv]))]

theorem insertLoop_go (ps : Nat) : ∀ (data : List FileDatum)
    (acc : List (List Nat × Entry)),
    (∀ d ∈ data, ∀ kv ∈ acc, kv.1 ≠ d.name) →
    (data.map FileDatum.name).Nodup →
    data.foldl
      (fun files datum => hashInsert files datum.name
        { offset := 0, length := datum.length,
          aligned_length := get_aligned_length ps datum.length,
          checksum := datum.checksum }) acc
      = acc ++ data.map fun d =>
        (d.name,
         { offset := 0, length := d.length,
           aligned_length := get_aligned_length ps d.length,
           checksum := d.checksum })
  | [], acc, _, _ => by simp
  | d :: rest, acc, hacc, hnd => by
    have hnd2 : (rest.map FileDatum.name).Nodup :=
      (List.nodup_cons.mp (by simpa using hnd)).2
    have hd_not : d.name ∉ rest.map FileDatum.name :=
      (List.nodup_cons.mp (by simpa using hnd)).1
    rw [List.foldl_cons,
      hashInsert_of_forall_ne acc d.name _ (fun kv hkv => hacc d (by simp) kv hkv)]
    have hacc2 : ∀ d2 ∈ rest, ∀ kv ∈ acc ++
        [(d.name,
          ({ offset := 0, length := d.length,
             aligned_length := get_aligned_length ps d.length,
             checksum := d.checksum } : Entry))], kv.1 ≠ d2.name := by
      intro d2 hd2 kv hkv
      rcases List.mem_append.mp hkv with h1 | h1
      · exact hacc d2 (by simp [hd2]) kv h1
      · simp only [List.mem_singleton] at h1
        subst h1
        intro hcontra
        apply hd_not
        have h3 : d.name = d2.name := hcontra
        rw [h3]
        exact List.mem_map_of_mem _ hd2
    rw [insertLoop_go ps rest _ hacc2 hnd2]
    simp

/-- For pairwise-distinct names (a directory guarantees unique paths) the
insertion loop preserves the input order: the map, in iteration order, is
the input list with each datum turned into an offsetless entry. -/
theorem insertLoop_eq_map (ps : Nat) (data : List FileDatum)
    (hnd : (data.map FileDatum.name).Nodup) :
    insertLoop ps data = data.map fun d =>
      (d.name,
       { offset := 0, length := d.length,
         aligned_length := get_aligned_length ps d.length,
         checksum := d.checksum }) := by
  rw [insertLoop, insertLoop_go ps data [] (by simp) hnd]
  simp

theorem assignOffsets_length (m : List (List Nat × Entry)) (s : Nat) :
    (assignOffsets m s).length = m.length := by
  induction m generalizing s with
  | nil => rfl
  | cons kv rest ih =>
    obtain ⟨k, v⟩ := kv
    simp [assignOffsets, ih]

/-- Sum of the aligned lengths of the first `i` pairs of a table. -/
def sumAlignedTake (m : List (List Nat × Entry)) (i : Nat) : Nat :=
  ((m.take i).map fun kv => kv.2.aligned_length).sum

theorem assignOffsets_get : ∀ (m : List (List Nat × Entry)) (s i : Nat)
    (hi : i < m.length),
    (assignOffsets m s).get ⟨i, by rw [assignOffsets_length]; exact hi⟩ =
      ((m.get ⟨i, hi⟩).1,
       { (m.get ⟨i, hi⟩).2 with offset := s + sumAlignedTake m i })
  | (k, v) :: rest, s, 0, hi => by
    simp [assignOffsets, sumAlignedTake]
  | (k, v) :: rest, s, i+1, hi => by
    have hi2 : i < rest.length := by simpa using hi
    simp only [assignOffsets, List.get_cons_succ]
    rw [assignOffsets_get rest (s + v.aligned_length) i hi2]
    have hsum : sumAlignedTake ((k, v) :: rest) (i + 1)
        = v.aligned_length + sumAlignedTake rest i := by
      simp [sumAlignedTake]
    rw [hsum]
    show _ = ((rest.get ⟨i, hi2⟩).1,
      { (rest.get ⟨i, hi2⟩).2 with
          offset := s + (v.aligned_length + sumAlignedTake rest i) })
    rw [Nat.add_assoc]

theorem assignOffsets_map_fst (m : List (List Nat × Entry)) (s : Nat) :
    (assignOffsets m s).map Prod.fst = m.map Prod.fst := by
  induction m generalizing s with
  | nil => rfl
  | cons kv rest ih =>
    obtain ⟨k, v⟩ := kv
    simp [assignOffsets, ih]

theorem assignOffsets_map_aligned (m : List (List Nat × Entry)) (s : Nat) :
    ((assignOffsets m s).map fun kv => kv.2.aligned_length)
      = m.map fun kv => kv.2.aligned_length := by
  induction m generalizing s with
  | nil => rfl
  | cons kv rest ih =>
    obtain ⟨k, v⟩ := kv
    simp [assignOffsets, ih]

theorem foldl_add_aligned (l : List (List Nat × Entry)) (a : Nat) :
    l.foldl (fun total kv => total + kv.2.aligned_length) a
      = a + (l.map fun kv => kv.2.aligned_length).sum := by
  induction l generalizing a with
  | nil => simp
  | cons kv rest ih => simp [ih, Nat.add_assoc]

theorem total_aligned_length_eq (e : Entries) :
    e.total_aligned_length = (e.files.map fun kv => kv.2.aligned_length).sum := by
  rw [Entries.total_aligned_length, foldl_add_aligned]
  simp

theorem lookup_get_of_nodup : ∀ (m : List (List Nat × Entry)) (i : Nat)
    (hi : i < m.length), (m.map Prod.fst).Nodup →
    m.lookup (m.get ⟨i, hi⟩).1 = some (m.get ⟨i, hi⟩).2
  | (k, v) :: rest, 0, hi, hnd => by
    simp [List.lookup]
  | (k, v) :: rest, i+1, hi, hnd => by
    have hi2 : i < rest.length := by simpa using hi
    have hknotin : k ∉ rest.map Prod.fst :=
      (List.nodup_cons.mp (by simpa using hnd)).1
    have hmem : (rest.get ⟨i, hi2⟩).1 ∈ rest.map Prod.fst :=
      List.mem_map_of_mem _ (rest.get_mem i hi2)
    have hne : ((rest.get ⟨i, hi2⟩).1 == k) = false := by
      rw [beq_eq_false_iff_ne]
      intro hcontra
      exact hknotin (hcontra ▸ hmem)
    simp only [List.get_cons_succ, List.lookup, hne]
    exact lookup_get_of_nodup rest i hi2 (List.nodup_cons.mp (by simpa using hnd)).2

/-! ## Deserializer round-trip lemmas -/

theorem take_append_of_length {α : Type} (l₁ l₂ : List α) (n : Nat)
    (h : l₁.length = n) : (l₁ ++ l₂).take n = l₁ := by
  subst h
  exact List.take_left l₁ l₂

theorem drop_append_of_length {α : Type} (l₁ l₂ : List α) (n : Nat)
    (h : l₁.length = n) : (l₁ ++ l₂).drop n = l₂ := by
  subst h
  exact List.drop_left l₁ l₂

theorem drop_add_append {α : Type} (l₁ l₂ : List α) (n m : Nat)
    (h : l₁.length = n) : (l₁ ++ l₂).drop (n + m) = l₂.drop m := by
  subst h
  exact List.drop_append m

theorem readU64_leBytes (v : Nat) (rest : List Nat) :
    readU64 (leBytes 8 v ++ rest) = some (v % 2 ^ 64, rest) := by
  have hlen : (leBytes 8 v).length = 8 := leBytes_length 8 v
  rw [readU64, if_pos (by simp [hlen]),
    take_append_of_length _ _ _ hlen, drop_append_of_length _ _ _ hlen,
    leDecode_leBytes]
  norm_num

theorem readU64_leBytes_of_lt (v : Nat) (rest : List Nat) (h : v < 2 ^ 64) :
    readU64 (leBytes 8 v ++ rest) = some (v, rest) := by
  rw [readU64_leBytes, Nat.mod_eq_of_lt h]

theorem readString_serializeString (s rest : List Nat)
    (hutf : validUtf8 s = true) (hlen : s.length < 2 ^ 64) :
    readString (serializeString s ++ rest) = some (s, rest) := by
  rw [serializeString, List.append_assoc, readString,
    readU64_leBytes_of_lt _ _ hlen]
  simp only
  rw [if_pos (by simp), take_append_of_length s rest _ rfl, if_pos hutf,
    drop_append_of_length s rest _ rfl]

theorem readEntry_serializeEntry (e : Entry) (rest : List Nat)
    (h1 : e.offset < 2 ^ 64) (h2 : e.length < 2 ^ 64)
    (h3 : e.aligned_length < 2 ^ 64) (h4 : e.checksum < 2 ^ 64) :
    readEntry (serializeEntry e ++ rest) = some (e, rest) := by
  rw [serializeEntry, List.append_assoc, List.append_assoc, List.append_assoc,
    readEntry, readU64_leBytes_of_lt _ _ h1]
  simp only
  rw [readU64_leBytes_of_lt _ _ h2]
  simp only
  rw [readU64_leBytes_of_lt _ _ h3]
  simp only
  rw [readU64_leBytes_of_lt _ _ h4]

/-- The field bounds needed for one table pair to survive the 64-bit
encoding. -/
def pairFits (kv : List Nat × Entry) : Prop :=
  validUtf8 kv.1 = true ∧ kv.1.length < 2 ^ 64 ∧ kv.2.offset < 2 ^ 64 ∧
    kv.2.length < 2 ^ 64 ∧ kv.2.aligned_length < 2 ^ 64 ∧ kv.2.checksum < 2 ^ 64

theorem readPairs_roundtrip : ∀ (l : List (List Nat × Entry)) (rest : List Nat),
    (∀ kv ∈ l, pairFits kv) →
    readPairs l.length
      ((l.map fun kv => serializeString kv.1 ++ serializeEntry kv.2).flatten ++ rest)
      = some (l, rest)
  | [], rest, _ => by simp [readPairs]
  | kv :: l, rest, h => by
    obtain ⟨k, v⟩ := kv
    obtain ⟨hu, hk, h1, h2, h3, h4⟩ := h (k, v) (by simp)
    simp only [List.map_cons, List.flatten_cons, List.length_cons]
    rw [readPairs, List.append_assoc, List.append_assoc,
      readString_serializeString k _ hu hk]
    simp only
    rw [readEntry_serializeEntry v _ h1 h2 h3 h4]
    simp only
    rw [readPairs_roundtrip l rest (fun kv hkv => h kv (by simp [hkv]))]

theorem deserializeEntries_serializeEntries (e : Entries)
    (hcount : e.files.length < 2 ^ 64)
    (h : ∀ kv ∈ e.files, pairFits kv) :
    deserializeEntries (serializeEntries e) = some e := by
  rw [serializeEntries, deserializeEntries, readU64_leBytes_of_lt _ _ hcount]
  simp only
  have hrp := readPairs_roundtrip e.files [] h
  rw [List.append_nil] at hrp
  rw [hrp]

theorem deserializeHeader_serializeHeader (h : Header) (hid : h.id.length = 8)
    (h1 : h.version_number < 2 ^ 64) (h2 : h.file_length < 2 ^ 64)
    (h3 : h.file_offset < 2 ^ 64) (h4 : h.page_size < 2 ^ 64)
    (h5 : h.entries_length < 2 ^ 64) (h6 : h.entries_checksum < 2 ^ 64) :
    deserializeHeader (serializeHeader h) = h := by
  have hbs : serializeHeader h =
      h.id ++ (leBytes 8 h.version_number ++ (leBytes 8 h.file_length ++
        (leBytes 8 h.file_offset ++ (leBytes 8 h.page_size ++
        (leBytes 8 h.entries_length ++ leBytes 8 h.entries_checksum))))) := by
    simp [serializeHeader, List.append_assoc]
  have d8 : (serializeHeader h).drop 8 =
      leBytes 8 h.version_number ++ (leBytes 8 h.file_length ++
        (leBytes 8 h.file_offset ++ (leBytes 8 h.page_size ++
        (leBytes 8 h.entries_length ++ leBytes 8 h.entries_checksum)))) := by
    rw [hbs]
    exact drop_append_of_length _ _ _ hid
  have d16 : (serializeHeader h).drop 16 =
      leBytes 8 h.file_length ++ (leBytes 8 h.file_offset ++
        (leBytes 8 h.page_size ++
        (leBytes 8 h.entries_length ++ leBytes 8 h.entries_checksum))) := by
    rw [show (16:Nat) = 8 + 8 from rfl, ← List.drop_drop, d8]
    exact drop_append_of_length _ _ _ (leBytes_length 8 _)
  have d24 : (serializeHeader h).drop 24 =
      leBytes 8 h.file_offset ++ (leBytes 8 h.page_size ++
        (leBytes 8 h.entries_length ++ leBytes 8 h.entries_checksum)) := by
    rw [show (24:Nat) = 16 + 8 from rfl, ← List.drop_drop, d16]
    exact drop_append_of_length _ _ _ (leBytes_length 8 _)
  have d32 : (serializeHeader h).drop 32 =
      leBytes 8 h.page_size ++
        (leBytes 8 h.entries_length ++ leBytes 8 h.entries_checksum) := by
    rw [show (32:Nat) = 24 + 8 from rfl, ← List.drop_drop, d24]
    exact drop_append_of_length _ _ _ (leBytes_length 8 _)
  have d40 : (serializeHeader h).drop 40 =
      leBytes 8 h.entries_length ++ leBytes 8 h.entries_checksum := by
    rw [show (40:Nat) = 32 + 8 from rfl, ← List.drop_drop, d32]
    exact drop_append_of_length _ _ _ (leBytes_length 8 _)
  have d48 : (serializeHeader h).drop 48 = leBytes 8 h.entries_checksum := by
    rw [show (48:Nat) = 40 + 8 from rfl, ← List.drop_drop, d40]
    exact drop_append_of_length _ _ _ (leBytes_length 8 _)
  have t0 : (serializeHeader h).take 8 = h.id := by
    rw [hbs]
    exact take_append_of_length _ _ _ hid
  have hec : (leBytes 8 h.entries_checksum).take 8 = leBytes 8 h.entries_checksum :=
    List.take_of_length_le (by rw [leBytes_length])
  obtain ⟨hdr_id, vn, fl, fo, ps, el, ec⟩ := h
  simp only at hid h1 h2 h3 h4 h5 h6 d8 d16 d24 d32 d40 d48 t0 hec
  simp only [deserializeHeader, d8, d16, d24, d32, d40, d48, t0, hec,
    take_append_of_length _ _ 8 (leBytes_length 8 _),
    leDecode_leBytes8 _ h1, leDecode_leBytes8 _ h2,
    leDecode_leBytes8 _ h3, leDecode_leBytes8 _ h4,
    leDecode_leBytes8 _ h5, leDecode_leBytes8 _ h6]

/-! ## Write layout lemmas -/

theorem assignOffsets_map_noOffset {γ : Type} (f : List Nat → Nat → Nat → Nat → γ) :
    ∀ (m : List (List Nat × Entry)) (s : Nat),
    ((assignOffsets m s).map fun kv =>
        f kv.1 kv.2.length kv.2.aligned_length kv.2.checksum)
      = m.map fun kv => f kv.1 kv.2.length kv.2.aligned_length kv.2.checksum
  | [], _ => rfl
  | (k, v) :: rest, s => by
    simp only [assignOffsets, List.map_cons]
    rw [assignOffsets_map_noOffset f rest (s + v.aligned_length)]

theorem lookup_mem_of_nodup {β : Type} :
    ∀ (m : List (List Nat × β)) (kv : List Nat × β),
    kv ∈ m → (m.map Prod.fst).Nodup → m.lookup kv.1 = some kv.2
  | (k0, v0) :: rest, kv, hmem, hnd => by
    rcases List.mem_cons.mp hmem with heq | hmem2
    · subst heq
      simp [List.lookup]
    · have hknotin : k0 ∉ rest.map Prod.fst :=
        (List.nodup_cons.mp (by simpa using hnd)).1
      have hne : (kv.1 == k0) = false := by
        rw [beq_eq_false_iff_ne]
        intro hcontra
        exact hknotin (hcontra ▸ List.mem_map_of_mem Prod.fst hmem2)
      simp only [List.lookup, hne]
      exact lookup_mem_of_nodup rest kv hmem2
        (List.nodup_cons.mp (by simpa using hnd)).2

theorem contentRegion_length (l : List (List Nat × Nat))
    (hb : ∀ p ∈ l, p.1.length ≤ p.2) :
    ((l.map fun p => p.1 ++ List.replicate (p.2 - p.1.length) 0).flatten).length
      = (l.map Prod.snd).sum := by
  rw [List.length_flatten, List.map_map]
  congr 1
  apply List.map_congr_left
  intro p hp
  have := hb p hp
  simp [Function.comp, List.length_append, List.length_replicate]
  omega

theorem contentRegion_extract : ∀ (l : List (List Nat × Nat)) (i : Nat)
    (hi : i < l.length), (∀ p ∈ l, p.1.length ≤ p.2) →
    (((l.map fun p => p.1 ++ List.replicate (p.2 - p.1.length) 0).flatten).drop
        (((l.take i).map Prod.snd).sum)).take (l.get ⟨i, hi⟩).1.length
      = (l.get ⟨i, hi⟩).1
  | p :: l, 0, hi, hb => by
    obtain ⟨c, a⟩ := p
    simp only [List.take_zero, List.map_nil, List.sum_nil, List.drop_zero,
      List.map_cons, List.flatten_cons, List.get]
    rw [List.append_assoc]
    exact take_append_of_length c _ _ rfl
  | p :: l, i + 1, hi, hb => by
    obtain ⟨c, a⟩ := p
    have hi2 : i < l.length := by simpa using hi
    have hca : c.length ≤ a := hb (c, a) (by simp)
    have hlen : (c ++ List.replicate (a - c.length) 0).length = a := by
      simp [List.length_append, List.length_replicate]
      omega
    simp only [List.map_cons, List.flatten_cons, List.take_succ_cons,
      List.sum_cons, List.get_cons_succ]
    rw [drop_add_append _ _ _ _ hlen]
    exact contentRegion_extract l i hi2 (fun q hq => hb q (by simp [hq]))

/-! ## The values `FileArco::make` computes (its let-bound subterms) -/

/-- The entries table built inside `FileArco::make` (src/v1.rs:234). -/
def madeEntries (page_size : Nat) (items : List (List Nat × List Nat)) : Entries :=
  Entries.new page_size (items.map datumOf)

/-- The header built inside `FileArco::make` (src/v1.rs:238-241). -/
def madeHeader (page_size : Nat) (items : List (List Nat × List Nat)) : Header :=
  Header.new page_size (serializeEntries (madeEntries page_size items)).length
    (madeEntries page_size items).total_aligned_length
    (crc64 (serializeEntries (madeEntries page_size items)))

theorem make_unfold (ps : Nat) (items : List (List Nat × List Nat)) :
    FileArco.make ps items =
      (if (serializeHeader (madeHeader ps items)).length + 8 +
          (serializeEntries (madeEntries ps items)).length ≤
          (madeHeader ps items).file_offset then
        MakeResult.ok (serializeHeader (madeHeader ps items) ++
          leBytes 8 (crc64 (serializeHeader (madeHeader ps items))) ++
          serializeEntries (madeEntries ps items) ++
          List.replicate ((madeHeader ps items).file_offset -
            ((serializeHeader (madeHeader ps items)).length + 8 +
             (serializeEntries (madeEntries ps items)).length)) 0 ++
          ((madeEntries ps items).files.map fun kv =>
            (items.lookup kv.1).getD [] ++
              List.replicate (kv.2.aligned_length - kv.2.length) 0).flatten)
      else MakeResult.panicked) := rfl

theorem madeHeader_id_length (ps : Nat) (items : List (List Nat × List Nat)) :
    (madeHeader ps items).id.length = 8 := rfl

theorem serializeHeader_madeHeader_length (ps : Nat)
    (items : List (List Nat × List Nat)) :
    (serializeHeader (madeHeader ps items)).length = 56 :=
  serializeHeader_length _ (madeHeader_id_length ps items)

theorem make_eq_ok (ps : Nat) (items : List (List Nat × List Nat))
    (hfit : 56 + 8 + (serializeEntries (madeEntries ps items)).length ≤
      (madeHeader ps items).file_offset) :
    FileArco.make ps items = .ok
      (serializeHeader (madeHeader ps items) ++
        leBytes 8 (crc64 (serializeHeader (madeHeader ps items))) ++
        serializeEntries (madeEntries ps items) ++
        List.replicate ((madeHeader ps items).file_offset -
          (56 + 8 + (serializeEntries (madeEntries ps items)).length)) 0 ++
        ((madeEntries ps items).files.map fun kv =>
          (items.lookup kv.1).getD [] ++
            List.replicate (kv.2.aligned_length - kv.2.length) 0).flatten) := by
  rw [make_unfold, serializeHeader_madeHeader_length, if_pos hfit]

theorem make_fit_of_ok (ps : Nat) (items : List (List Nat × List Nat))
    (bytes : List Nat) (hok : FileArco.make ps items = .ok bytes) :
    56 + 8 + (serializeEntries (madeEntries ps items)).length ≤
      (madeHeader ps items).file_offset := by
  by_contra hfit
  rw [make_unfold, serializeHeader_madeHeader_length, if_neg hfit] at hok
  exact MakeResult.noConfusion hok

/-! ## The round trip -/

/-- The offsetless entry list the first loop of `Entries::new` builds for
distinct names, in input order. -/
def baseList (ps : Nat) (items : List (List Nat × List Nat)) : List (List Nat × Entry) :=
  items.map fun nc =>
    (nc.1, { offset := 0, length := nc.2.length,
             aligned_length := get_aligned_length ps nc.2.length,
             checksum := crc64 nc.2 })

/-- Content and aligned length of each input file, in order. -/
def contentPairs (ps : Nat) (items : List (List Nat × List Nat)) : List (List Nat × Nat) :=
  items.map fun nc => (nc.2, get_aligned_length ps nc.2.length)

theorem length_le_sum (l : List Nat) (h : ∀ x ∈ l, 1 ≤ x) : l.length ≤ l.sum := by
  induction l with
  | nil => simp
  | cons x rest ih =>
    have hx := h x (by simp)
    have := ih (fun y hy => h y (by simp [hy]))
    simp only [List.length_cons, List.sum_cons]
    omega

theorem sum_take_le (l : List Nat) (i : Nat) : (l.take i).sum ≤ l.sum := by
  conv_rhs => rw [← List.take_append_drop i l]
  rw [List.sum_append]
  omega

theorem madeEntries_files_eq (ps : Nat) (items : List (List Nat × List Nat))
    (hnd : (items.map Prod.fst).Nodup) :
    (madeEntries ps items).files = assignOffsets (baseList ps items) 0 := by
  rw [madeEntries, Entries.new, baseList]
  congr 1
  rw [insertLoop_eq_map]
  · rw [List.map_map]
    rfl
  · rw [List.map_map]
    simpa using hnd

theorem madeEntries_map_fst (ps : Nat) (items : List (List Nat × List Nat))
    (hnd : (items.map Prod.fst).Nodup) :
    ((madeEntries ps items).files.map Prod.fst) = items.map Prod.fst := by
  rw [madeEntries_files_eq ps items hnd, assignOffsets_map_fst, baseList,
    List.map_map]
  rfl

theorem madeEntries_total (ps : Nat) (items : List (List Nat × List Nat))
    (hnd : (items.map Prod.fst).Nodup) :
    (madeEntries ps items).total_aligned_length
      = ((contentPairs ps items).map Prod.snd).sum := by
  rw [total_aligned_length_eq, madeEntries_files_eq ps items hnd,
    assignOffsets_map_aligned, baseList, contentPairs, List.map_map,
    List.map_map]
  rfl

theorem madeHeader_file_length (ps : Nat) (items : List (List Nat × List Nat)) :
    (madeHeader ps items).file_length =
      (madeHeader ps items).file_offset +
        (madeEntries ps items).total_aligned_length := rfl

theorem madeHeader_file_offset (ps : Nat) (items : List (List Nat × List Nat)) :
    (madeHeader ps items).file_offset =
      get_aligned_length ps
        (56 + (serializeEntries (madeEntries ps items)).length) := by
  rw [madeHeader, Header.new_def]

theorem madeHeader_fields (ps : Nat) (items : List (List Nat × List Nat)) :
    (madeHeader ps items).id = FILEARCO_ID ∧
    (madeHeader ps items).version_number = 1 ∧
    (madeHeader ps items).page_size = ps ∧
    (madeHeader ps items).entries_length =
      (serializeEntries (madeEntries ps items)).length ∧
    (madeHeader ps items).entries_checksum =
      crc64 (serializeEntries (madeEntries ps items)) :=
  ⟨rfl, rfl, rfl, rfl, rfl⟩

theorem length_le_aligned {k : Nat} (n : Nat) (hk64 : k < 64)
    (hsm : n + 2 ^ k ≤ 2 ^ 64) : n ≤ get_aligned_length (2 ^ k) n := by
  rw [get_aligned_length_eq_alignUp (le_of_lt hk64) hsm]
  exact le_alignUp n (Nat.pow_pos (by norm_num))

theorem madeEntries_pairFits (ps : Nat) (items : List (List Nat × List Nat))
    (k : Nat) (hk : ps = 2 ^ k) (hk64 : k < 64)
    (hnd : (items.map Prod.fst).Nodup)
    (hutf : ∀ nc ∈ items, validUtf8 nc.1 = true)
    (hcontb : ∀ nc ∈ items, ∀ b ∈ nc.2, b < 256)
    (hsmall : ∀ nc ∈ items, nc.2.length + ps ≤ 2 ^ 64)
    (hfit : 56 + 8 + (serializeEntries (madeEntries ps items)).length ≤
      (madeHeader ps items).file_offset)
    (hfl : (madeHeader ps items).file_length < 2 ^ 64) :
    ∀ kv ∈ (madeEntries ps items).files, pairFits kv := by
  intro kv hkv
  have htot : (madeHeader ps items).file_offset
      + (madeEntries ps items).total_aligned_length < 2 ^ 64 := by
    rw [← madeHeader_file_length]
    exact hfl
  have hE : (serializeEntries (madeEntries ps items)).length < 2 ^ 64 := by omega
  have hname : 40 + kv.1.length ≤
      ((madeEntries ps items).files.map fun q => 40 + q.1.length).sum :=
    List.single_le_sum (fun x _ => Nat.zero_le x) _
      (List.mem_map_of_mem _ hkv)
  have hnamelt : kv.1.length < 2 ^ 64 := by
    have hEeq := serializeEntries_length (madeEntries ps items)
    omega
  have hkv0 := hkv
  rw [madeEntries_files_eq ps items hnd] at hkv
  rcases List.mem_iff_get.mp hkv with ⟨⟨i, hi⟩, hget⟩
  have hi2 : i < (baseList ps items).length := by
    rw [assignOffsets_length] at hi
    exact hi
  have hkveq : kv = (((baseList ps items).get ⟨i, hi2⟩).1,
      { ((baseList ps items).get ⟨i, hi2⟩).2 with
          offset := 0 + sumAlignedTake (baseList ps items) i }) := by
    rw [← hget, assignOffsets_get (baseList ps items) 0 i hi2]
  have hi3 : i < items.length := by
    simpa only [baseList, List.length_map] using hi2
  have hbget : (baseList ps items).get ⟨i, hi2⟩ =
      ((items.get ⟨i, hi3⟩).1,
       { offset := 0, length := (items.get ⟨i, hi3⟩).2.length,
         aligned_length := get_aligned_length ps (items.get ⟨i, hi3⟩).2.length,
         checksum := crc64 (items.get ⟨i, hi3⟩).2 }) := by
    simp only [baseList]
    rw [List.get_map]
  have hmem : items.get ⟨i, hi3⟩ ∈ items := items.get_mem i hi3
  have htoteq : (madeEntries ps items).total_aligned_length
      = ((baseList ps items).map fun q => q.2.aligned_length).sum := by
    rw [total_aligned_length_eq, madeEntries_files_eq ps items hnd,
      assignOffsets_map_aligned]
  have hoff : sumAlignedTake (baseList ps items) i
      ≤ (madeEntries ps items).total_aligned_length := by
    rw [htoteq, sumAlignedTake, List.map_take]
    exact sum_take_le _ i
  have hal_mem : get_aligned_length ps (items.get ⟨i, hi3⟩).2.length ∈
      (baseList ps items).map fun q => q.2.aligned_length := by
    simp only [baseList, List.map_map]
    exact List.mem_map_of_mem _ hmem
  have haltot : get_aligned_length ps (items.get ⟨i, hi3⟩).2.length
      ≤ (madeEntries ps items).total_aligned_length := by
    rw [htoteq]
    exact List.single_le_sum (fun x _ => Nat.zero_le x) _ hal_mem
  have hlen_le : (items.get ⟨i, hi3⟩).2.length
      ≤ get_aligned_length ps (items.get ⟨i, hi3⟩).2.length := by
    rw [hk]
    exact length_le_aligned _ hk64 (hk ▸ hsmall _ hmem)
  rw [hkveq, hbget] at hnamelt ⊢
  rw [pairFits]
  refine ⟨hutf _ hmem, hnamelt, ?_, ?_, ?_, ?_⟩
  · show 0 + sumAlignedTake (baseList ps items) i < 2 ^ 64
    omega
  · show (items.get ⟨i, hi3⟩).2.length < 2 ^ 64
    omega
  · show get_aligned_length ps (items.get ⟨i, hi3⟩).2.length < 2 ^ 64
    omega
  · show crc64 (items.get ⟨i, hi3⟩).2 < 2 ^ 64
    exact crc64_lt fun b hb =>
      lt_trans (hcontb _ hmem b hb) (by norm_num)

/-- The byte stream `FileArco::make` emits when the padding fits
(src/v1.rs:243-277): header, header checksum, entries table, zero padding
up to `file_offset`, then each file's contents padded to its aligned
length, in table order. -/
def madeBytes (ps : Nat) (items : List (List Nat × List Nat)) : List Nat :=
  serializeHeader (madeHeader ps items) ++
    leBytes 8 (crc64 (serializeHeader (madeHeader ps items))) ++
    serializeEntries (madeEntries ps items) ++
    List.replicate ((madeHeader ps items).file_offset -
      (56 + 8 + (serializeEntries (madeEntries ps items)).length)) 0 ++
    ((madeEntries ps items).files.map fun kv =>
      (items.lookup kv.1).getD [] ++
        List.replicate (kv.2.aligned_length - kv.2.length) 0).flatten

theorem make_eq_ok_madeBytes (ps : Nat) (items : List (List Nat × List Nat))
    (hfit : 56 + 8 + (serializeEntries (madeEntries ps items)).length ≤
      (madeHeader ps items).file_offset) :
    FileArco.make ps items = .ok (madeBytes ps items) :=
  make_eq_ok ps items hfit

theorem madeBytes_blocks (ps : Nat) (items : List (List Nat × List Nat))
    (hnd : (items.map Prod.fst).Nodup) :
    ((madeEntries ps items).files.map fun kv =>
        (items.lookup kv.1).getD [] ++
          List.replicate (kv.2.aligned_length - kv.2.length) 0)
      = (contentPairs ps items).map fun p =>
          p.1 ++ List.replicate (p.2 - p.1.length) 0 := by
  rw [madeEntries_files_eq ps items hnd]
  have h := assignOffsets_map_noOffset
    (fun name len al _ck => (items.lookup name).getD [] ++
      List.replicate (al - len) 0) (baseList ps items) 0
  simp only at h
  rw [h]
  simp only [baseList, contentPairs, List.map_map]
  apply List.map_congr_left
  intro nc hmem
  simp only [Function.comp]
  rw [lookup_mem_of_nodup items nc hmem hnd]
  rfl

theorem contentPairs_bounded (ps : Nat) (items : List (List Nat × List Nat))
    (k : Nat) (hk : ps = 2 ^ k) (hk64 : k < 64)
    (hsmall : ∀ nc ∈ items, nc.2.length + ps ≤ 2 ^ 64) :
    ∀ p ∈ contentPairs ps items, p.1.length ≤ p.2 := by
  intro p hp
  rcases List.mem_map.mp hp with ⟨nc, hnc, rfl⟩
  subst hk
  exact length_le_aligned _ hk64 (hsmall nc hnc)

theorem madeBytes_length (ps : Nat) (items : List (List Nat × List Nat))
    (k : Nat) (hk : ps = 2 ^ k) (hk64 : k < 64)
    (hnd : (items.map Prod.fst).Nodup)
    (hsmall : ∀ nc ∈ items, nc.2.length + ps ≤ 2 ^ 64)
    (hfit : 56 + 8 + (serializeEntries (madeEntries ps items)).length ≤
      (madeHeader ps items).file_offset) :
    (madeBytes ps items).length = (madeHeader ps items).file_length := by
  rw [madeBytes, madeBytes_blocks ps items hnd, madeHeader_file_length,
    madeEntries_total ps items hnd]
  have hC := contentRegion_length (contentPairs ps items)
    (contentPairs_bounded ps items k hk hk64 hsmall)
  have hH : (serializeHeader (madeHeader ps items)).length = 56 :=
    serializeHeader_madeHeader_length ps items
  simp only [List.length_append, hH, leBytes_length, List.length_replicate, hC]
  omega

theorem madeBytes_assoc (ps : Nat) (items : List (List Nat × List Nat)) :
    madeBytes ps items =
      serializeHeader (madeHeader ps items) ++
        (leBytes 8 (crc64 (serializeHeader (madeHeader ps items))) ++
          (serializeEntries (madeEntries ps items) ++
            (List.replicate ((madeHeader ps items).file_offset -
              (56 + 8 + (serializeEntries (madeEntries ps items)).length)) 0 ++
              ((madeEntries ps items).files.map fun kv =>
                (items.lookup kv.1).getD [] ++
                  List.replicate (kv.2.aligned_length - kv.2.length) 0).flatten))) := by
  simp [madeBytes, List.append_assoc]

theorem madeBytes_take56 (ps : Nat) (items : List (List Nat × List Nat)) :
    (madeBytes ps items).take 56 = serializeHeader (madeHeader ps items) := by
  rw [madeBytes_assoc]
  exact take_append_of_length _ _ _ (serializeHeader_madeHeader_length ps items)

theorem madeBytes_drop56 (ps : Nat) (items : List (List Nat × List Nat)) :
    (madeBytes ps items).drop 56 =
      leBytes 8 (crc64 (serializeHeader (madeHeader ps items))) ++
        (serializeEntries (madeEntries ps items) ++
          (List.replicate ((madeHeader ps items).file_offset -
            (56 + 8 + (serializeEntries (madeEntries ps items)).length)) 0 ++
            ((madeEntries ps items).files.map fun kv =>
              (items.lookup kv.1).getD [] ++
                List.replicate (kv.2.aligned_length - kv.2.length) 0).flatten)) := by
  rw [madeBytes_assoc]
  exact drop_append_of_length _ _ _ (serializeHeader_madeHeader_length ps items)

theorem madeBytes_ck (ps : Nat) (items : List (List Nat × List Nat)) :
    ((madeBytes ps items).drop 56).take 8 =
      leBytes 8 (crc64 (serializeHeader (madeHeader ps items))) := by
  rw [madeBytes_drop56]
  exact take_append_of_length _ _ _ (leBytes_length 8 _)

theorem madeBytes_drop64 (ps : Nat) (items : List (List Nat × List Nat)) :
    (madeBytes ps items).drop 64 =
      serializeEntries (madeEntries ps items) ++
        (List.replicate ((madeHeader ps items).file_offset -
          (56 + 8 + (serializeEntries (madeEntries ps items)).length)) 0 ++
          ((madeEntries ps items).files.map fun kv =>
            (items.lookup kv.1).getD [] ++
              List.replicate (kv.2.aligned_length - kv.2.length) 0).flatten) := by
  rw [show (64:Nat) = 56 + 8 from rfl, ← List.drop_drop, madeBytes_drop56]
  exact drop_append_of_length _ _ _ (leBytes_length 8 _)

theorem madeBytes_table (ps : Nat) (items : List (List Nat × List Nat)) :
    ((madeBytes ps items).drop 64).take
        (serializeEntries (madeEntries ps items)).length =
      serializeEntries (madeEntries ps items) := by
  rw [madeBytes_drop64]
  exact take_append_of_length _ _ _ rfl

theorem madeBytes_dropfo (ps : Nat) (items : List (List Nat × List Nat))
    (hfit : 56 + 8 + (serializeEntries (madeEntries ps items)).length ≤
      (madeHeader ps items).file_offset) :
    (madeBytes ps items).drop (madeHeader ps items).file_offset =
      ((madeEntries ps items).files.map fun kv =>
        (items.lookup kv.1).getD [] ++
          List.replicate (kv.2.aligned_length - kv.2.length) 0).flatten := by
  have hfo : (madeHeader ps items).file_offset =
      64 + ((serializeEntries (madeEntries ps items)).length +
        ((madeHeader ps items).file_offset -
          (56 + 8 + (serializeEntries (madeEntries ps items)).length))) := by
    omega
  rw [hfo, ← List.drop_drop, madeBytes_drop64,
    drop_add_append _ _ _ _ rfl]
  exact drop_append_of_length _ _ _ (List.length_replicate _ _)

theorem new_of_make (sps ps : Nat) (items : List (List Nat × List Nat))
    (k : Nat) (hk : ps = 2 ^ k) (hk64 : k < 64)
    (hnd : (items.map Prod.fst).Nodup)
    (hutf : ∀ nc ∈ items, validUtf8 nc.1 = true)
    (hnameb : ∀ nc ∈ items, ∀ b ∈ nc.1, b < 256)
    (hcontb : ∀ nc ∈ items, ∀ b ∈ nc.2, b < 256)
    (hsmall : ∀ nc ∈ items, nc.2.length + ps ≤ 2 ^ 64)
    (hfit : 56 + 8 + (serializeEntries (madeEntries ps items)).length ≤
      (madeHeader ps items).file_offset)
    (hfl : (madeHeader ps items).file_length < 2 ^ 64) :
    FileArco.new sps (madeBytes ps items) = .ok
      { file_offset := (madeHeader ps items).file_offset, page_size := ps,
        entries := madeEntries ps items, map := madeBytes ps items } := by
  have hlen : (madeBytes ps items).length = (madeHeader ps items).file_length :=
    madeBytes_length ps items k hk hk64 hnd hsmall hfit
  have hfo_le : (madeHeader ps items).file_offset ≤
      (madeHeader ps items).file_length := by
    rw [madeHeader_file_length]
    omega
  have hEfl : (serializeEntries (madeEntries ps items)).length < 2 ^ 64 := by
    omega
  have ht56 : (serializeHeader (Header.new sps 0 0 0)).length = 56 :=
    serializeHeader_length _ rfl
  have hHbytes : ∀ b ∈ serializeHeader (madeHeader ps items), b < 256 := by
    apply serializeHeader_lt
    intro b hb
    have hb2 : b ∈ FILEARCO_ID := hb
    simp only [FILEARCO_ID, List.mem_cons, List.not_mem_nil, or_false] at hb2
    rcases hb2 with h | h | h | h | h | h | h | h <;> omega
  have hCK : crc64 (serializeHeader (madeHeader ps items)) < 2 ^ 64 :=
    crc64_lt fun b hb => lt_trans (hHbytes b hb) (by norm_num)
  have hfnames : ∀ kv ∈ (madeEntries ps items).files, ∀ b ∈ kv.1, b < 256 := by
    intro kv hkv b hb
    have h1 : kv.1 ∈ (madeEntries ps items).files.map Prod.fst :=
      List.mem_map_of_mem _ hkv
    rw [madeEntries_map_fst ps items hnd] at h1
    rcases List.mem_map.mp h1 with ⟨nc, hnc, heq⟩
    exact hnameb nc hnc b (by rw [heq]; exact hb)
  have hTbytes : ∀ b ∈ serializeEntries (madeEntries ps items), b < 256 :=
    serializeEntries_lt _ hfnames
  have hecrc : crc64 (serializeEntries (madeEntries ps items)) < 2 ^ 64 :=
    crc64_lt fun b hb => lt_trans (hTbytes b hb) (by norm_num)
  have hps : ps < 2 ^ 64 := by
    rw [hk]
    exact Nat.pow_lt_pow_right (by norm_num) hk64
  have hdeser : deserializeHeader (serializeHeader (madeHeader ps items))
      = madeHeader ps items :=
    deserializeHeader_serializeHeader _ rfl
      (by rw [show (madeHeader ps items).version_number = 1 from rfl]; norm_num)
      hfl (by omega)
      (by rw [show (madeHeader ps items).page_size = ps from rfl]; exact hps)
      hEfl
      (by rw [show (madeHeader ps items).entries_checksum =
        crc64 (serializeEntries (madeEntries ps items)) from rfl]; exact hecrc)
  have hcnt : (madeEntries ps items).files.length < 2 ^ 64 := by
    have h1 : ((madeEntries ps items).files.map fun kv => 40 + kv.1.length).length
        ≤ ((madeEntries ps items).files.map fun kv => 40 + kv.1.length).sum := by
      apply length_le_sum
      intro x hx
      rcases List.mem_map.mp hx with ⟨kv, _, rfl⟩
      omega
    rw [List.length_map] at h1
    have h2 := serializeEntries_length (madeEntries ps items)
    omega
  have hdesE : deserializeEntries (serializeEntries (madeEntries ps items))
      = some (madeEntries ps items) :=
    deserializeEntries_serializeEntries _ hcnt
      (madeEntries_pairFits ps items k hk hk64 hnd hutf hcontb hsmall hfit hfl)
  simp only [FileArco.new, ht56, madeBytes_take56, hdeser,
    show (8:Nat) + 56 = 64 from rfl,
    show (madeHeader ps items).id = FILEARCO_ID from rfl,
    show (madeHeader ps items).version_number = 1 from rfl,
    show (madeHeader ps items).entries_length =
      (serializeEntries (madeEntries ps items)).length from rfl,
    show (madeHeader ps items).entries_checksum =
      crc64 (serializeEntries (madeEntries ps items)) from rfl,
    show (madeHeader ps items).page_size = ps from rfl,
    madeBytes_ck, leDecode_leBytes8 _ hCK, madeBytes_table, hdesE,
    Option.elim_some]
  rw [if_neg (by omega)]
  rw [if_neg (by simp)]
  rw [if_neg (by simp)]
  rw [if_neg (by simp)]
  rw [if_neg (by omega)]
  rw [if_neg (by omega)]
  rw [if_neg (by simp)]

theorem get_of_make (ps : Nat) (items : List (List Nat × List Nat))
    (k : Nat) (hk : ps = 2 ^ k) (hk64 : k < 64)
    (hnd : (items.map Prod.fst).Nodup)
    (hsmall : ∀ nc ∈ items, nc.2.length + ps ≤ 2 ^ 64)
    (hfit : 56 + 8 + (serializeEntries (madeEntries ps items)).length ≤
      (madeHeader ps items).file_offset)
    (nc : List Nat × List Nat) (hmem : nc ∈ items) :
    ∃ fr : FileRef,
      FileArco.get
        { file_offset := (madeHeader ps items).file_offset, page_size := ps,
          entries := madeEntries ps items, map := madeBytes ps items } nc.1
        = some fr ∧ fr.as_slice = nc.2 ∧ fr.is_valid = true := by
  rcases List.mem_iff_get.mp hmem with ⟨⟨i, hi⟩, hget⟩
  have hib : i < (baseList ps items).length := by
    simpa only [baseList, List.length_map] using hi
  have hbget : (baseList ps items).get ⟨i, hib⟩ =
      (nc.1, { offset := 0, length := nc.2.length,
               aligned_length := get_aligned_length ps nc.2.length,
               checksum := crc64 nc.2 }) := by
    simp only [baseList]
    rw [List.get_map, hget]
  have hiF : i < (assignOffsets (baseList ps items) 0).length := by
    rw [assignOffsets_length]
    exact hib
  have hFget : (assignOffsets (baseList ps items) 0).get ⟨i, hiF⟩ =
      (nc.1, { offset := 0 + sumAlignedTake (baseList ps items) i,
               length := nc.2.length,
               aligned_length := get_aligned_length ps nc.2.length,
               checksum := crc64 nc.2 }) := by
    rw [assignOffsets_get (baseList ps items) 0 i hib, hbget]
  have hmemF : (nc.1, ({ offset := 0 + sumAlignedTake (baseList ps items) i,
                         length := nc.2.length,
                         aligned_length := get_aligned_length ps nc.2.length,
                         checksum := crc64 nc.2 } : Entry)) ∈
      assignOffsets (baseList ps items) 0 :=
    hFget ▸ (assignOffsets (baseList ps items) 0).get_mem i hiF
  have hndF : ((assignOffsets (baseList ps items) 0).map Prod.fst).Nodup := by
    rw [assignOffsets_map_fst]
    simpa only [baseList, List.map_map] using hnd
  have hlookup : (madeEntries ps items).files.lookup nc.1 =
      some { offset := 0 + sumAlignedTake (baseList ps items) i,
             length := nc.2.length,
             aligned_length := get_aligned_length ps nc.2.length,
             checksum := crc64 nc.2 } := by
    rw [madeEntries_files_eq ps items hnd]
    exact lookup_mem_of_nodup _ _ hmemF hndF
  have hslice :
      (((madeBytes ps items).drop ((madeHeader ps items).file_offset +
        (0 + sumAlignedTake (baseList ps items) i))).take nc.2.length) = nc.2 := by
    rw [← List.drop_drop, madeBytes_dropfo ps items hfit,
      madeBytes_blocks ps items hnd]
    have hS : sumAlignedTake (baseList ps items) i
        = (((contentPairs ps items).take i).map Prod.snd).sum := by
      simp only [sumAlignedTake, baseList, contentPairs, ← List.map_take,
        List.map_map]
      rfl
    have hic : i < (contentPairs ps items).length := by
      simpa only [contentPairs, List.length_map] using hi
    have hcget1 : ((contentPairs ps items).get ⟨i, hic⟩).1 = nc.2 := by
      simp only [contentPairs]
      rw [List.get_map, hget]
    rw [Nat.zero_add, hS, ← hcget1]
    exact contentRegion_extract (contentPairs ps items) i hic
      (contentPairs_bounded ps items k hk hk64 hsmall)
  refine ⟨{ address := (madeHeader ps items).file_offset +
              (0 + sumAlignedTake (baseList ps items) i),
            length := nc.2.length,
            aligned_length := get_aligned_length ps nc.2.length,
            checksum := crc64 nc.2,
            inner := { file_offset := (madeHeader ps items).file_offset,
                       page_size := ps,
                       entries := madeEntries ps items,
                       map := madeBytes ps items } }, ?_, ?_, ?_⟩
  · simp only [FileArco.get]
    rw [hlookup]
    rfl
  · exact hslice
  · simp only [FileRef.is_valid, FileRef.as_slice]
    rw [hslice]
    exact beq_self_eq_true _

/-! ## Claim C9: absent key -/

theorem lookup_eq_none_of_not_mem {β : Type} :
    ∀ (m : List (List Nat × β)) (a : List Nat), a ∉ m.map Prod.fst →
    m.lookup a = none
  | [], _, _ => rfl
  | (k, v) :: rest, a, h => by
    have h1 : a ≠ k := by
      intro he
      exact h (by simp [he])
    have h2 : (a == k) = false := by rwa [beq_eq_false_iff_ne]
    simp only [List.lookup, h2]
    exact lookup_eq_none_of_not_mem rest a (fun hm => h (by simp [hm]))

/-- C9: for every opened archive state and every path that is not a key of
its entries table (lookup is exact match), `FileArco::get` returns `None`
(src/v1.rs:171-187).  The return type `Option<FileRef>` has no error case,
and the function body contains no panicking operation, so absence is
reported only as the normal "not found" outcome. -/
theorem C9_absent_key (inner : Inner) (path : List Nat)
    (h : path ∉ inner.entries.files.map Prod.fst) :
    FileArco.get inner path = none := by
  simp [FileArco.get, lookup_eq_none_of_not_mem _ _ h]

/-- A small concrete opened-archive state. -/
def innerW : Inner :=
  { file_offset := 64, page_size := 64,
    entries := { files := [([97],
      { offset := 0, length := 1, aligned_length := 64, checksum := 0 })] },
    map := List.replicate 128 0 }

theorem C9_absent_key_witness :
    ([98] ∉ innerW.entries.files.map Prod.fst) ∧
      FileArco.get innerW [98] = none :=
  ⟨by decide, C9_absent_key innerW [98] (by decide)⟩

/-! ## Claim C6: no bounds re-validation in get -/

/-- An entries table whose checksum will validate but whose entry offset
points far outside any 120-byte mapping. -/
def crafted6Table : List Nat :=
  serializeEntries { files := [([120],
    { offset := 1000000000, length := 5, aligned_length := 4096, checksum := 0 })] }

def crafted6Header : Header :=
  { id := FILEARCO_ID, version_number := 1, file_length := 120, file_offset := 64,
    page_size := 4096, entries_length := 49, entries_checksum := crc64 crafted6Table }

/-- A complete 120-byte crafted archive around `crafted6Table`. -/
def crafted6 : List Nat :=
  serializeHeader crafted6Header ++
    leBytes 8 (crc64 (serializeHeader crafted6Header)) ++
    crafted6Table ++ List.replicate 7 0

def crafted6Inner : Inner :=
  { file_offset := 64, page_size := 4096,
    entries := { files := [([120],
      { offset := 1000000000, length := 5, aligned_length := 4096, checksum := 0 })] },
    map := crafted6 }

set_option maxRecDepth 100000 in
/-- C6, counterexample: a crafted archive whose header and entries-table
checksums validate, but whose single entry's offset is inconsistent with
the mapped length.  `FileArco::new` accepts it, and `get` returns a view
whose byte range `[64 + 1000000000, 64 + 1000000000 + 4096)` lies far past
the 120-byte mapping: a view over bytes outside the mapping IS exposed,
refuting the claim that `get` re-validates
`entry.offset + entry.aligned_length` against the mapping length. -/
theorem C6_counterexample :
    FileArco.new 4096 crafted6 = .ok crafted6Inner ∧
    FileArco.get crafted6Inner [120] = some
      { address := 64 + 1000000000, length := 5, aligned_length := 4096,
        checksum := 0, inner := crafted6Inner } ∧
    crafted6.length = 120 ∧
    crafted6.length < 64 + 1000000000 + 4096 :=
  ⟨by decide, by decide, by decide, by decide⟩

/-- C6 (amended): on a lookup hit, `get` returns the view at
`file_offset + entry.offset` with the entry's lengths unconditionally;
src/v1.rs:171-187 performs no comparison of
`entry.offset + entry.aligned_length` with the mapping length before
exposing the view. -/
theorem C6_get_unchecked (inner : Inner) (path : List Nat) (e : Entry)
    (h : inner.entries.files.lookup path = some e) :
    FileArco.get inner path = some
      { address := inner.file_offset + e.offset, length := e.length,
        aligned_length := e.aligned_length, checksum := e.checksum,
        inner := inner } := by
  simp [FileArco.get, h]

set_option maxRecDepth 100000 in
theorem C6_get_unchecked_witness :
    (crafted6Inner.entries.files.lookup [120] = some
      { offset := 1000000000, length := 5, aligned_length := 4096,
        checksum := 0 }) ∧
    FileArco.get crafted6Inner [120] = some
      { address := crafted6Inner.file_offset + 1000000000, length := 5,
        aligned_length := 4096, checksum := 0, inner := crafted6Inner } :=
  ⟨by decide, C6_get_unchecked crafted6Inner [120]
    { offset := 1000000000, length := 5, aligned_length := 4096, checksum := 0 }
    (by decide)⟩

/-! ## Claim C3: header sizing omits the checksum bytes -/

/-- C3: `Header::new` computes `file_offset` from
`header_length + entries_length` alone (src/v1.rs:546); the 8 bytes of the
header checksum are not added.  At `page_size = 4096` and
`entries_length = 4040` (for example a single file whose relative path is
3992 bytes long) the code produces `file_offset = 4096`, whereas the
claimed formula `align_up(56 + 8 + 4040, 4096)` gives 8192, and the claimed
invariant `file_offset ≥ header bytes + checksum bytes + entries_length`
fails: 4096 < 4104.  `FileArco::make`'s padding subtraction
(src/v1.rs:259) then underflows on such input. -/
theorem C3_header_sizing :
    (Header.new 4096 4040 0 0).file_offset = 4096 ∧
    get_aligned_length 4096 (56 + 8 + 4040) = 8192 ∧
    (Header.new 4096 4040 0 0).file_offset < 56 + 8 + 4040 :=
  ⟨by decide, by decide, by decide⟩

/-! ## Claim C4: duplicates silently overwrite -/

/-- The offsetless entry built from one datum by the first loop of
`Entries::new` (src/v1.rs:570-581). -/
def entryOfDatum (ps : Nat) (d : FileDatum) : Entry :=
  { offset := 0, length := d.length,
    aligned_length := get_aligned_length ps d.length, checksum := d.checksum }

/-- C4, counterexample: two input items with the same path.  `Entries::new`
returns a table normally — its return type has no error case, and no
`DuplicateEntry` error exists anywhere in the crate — and the second item
has silently overwritten the first (length 2, checksum 6 survive; length 1,
checksum 5 are gone). -/
theorem C4_counterexample :
    Entries.new 64 [{ name := [97], length := 1, checksum := 5 },
                    { name := [97], length := 2, checksum := 6 }] =
      { files := [([97], { offset := 0, length := 2, aligned_length := 64,
                           checksum := 6 })] } := by decide

theorem hashInsert_lookup (m : List (List Nat × Entry)) (k : List Nat)
    (v : Entry) (name : List Nat) :
    (hashInsert m k v).lookup name =
      if name == k then some v else m.lookup name := by
  induction m with
  | nil =>
    by_cases h : name = k
    · have hb : (name == k) = true := by rwa [beq_iff_eq]
      simp [hashInsert, List.lookup, hb]
    · have hb : (name == k) = false := by rwa [beq_eq_false_iff_ne]
      simp [hashInsert, List.lookup, hb]
  | cons kv rest ih =>
    obtain ⟨k1, v1⟩ := kv
    by_cases h1 : k1 = k
    · subst h1
      simp only [hashInsert, if_pos rfl, List.lookup]
      by_cases h2 : (name == k1)
      · simp [h2]
      · simp [h2, List.lookup]
    · simp only [hashInsert, if_neg h1, List.lookup]
      by_cases h2 : (name == k1)
      · have h2e : name = k1 := eq_of_beq h2
        subst h2e
        have h3 : (name == k) = false := by
          rw [beq_eq_false_iff_ne]
          exact h1
        simp [h2, h3]
      · simp only [h2]
        rw [ih]

theorem insertLoop_lookup_go (ps : Nat) : ∀ (data : List FileDatum)
    (acc : List (List Nat × Entry)) (name : List Nat),
    (data.foldl (fun files datum => hashInsert files datum.name
      { offset := 0, length := datum.length,
        aligned_length := get_aligned_length ps datum.length,
        checksum := datum.checksum }) acc).lookup name =
    ((data.filter fun d => d.name == name).getLast?).elim
      (acc.lookup name) (fun d => some (entryOfDatum ps d))
  | [], acc, name => by simp
  | d :: rest, acc, name => by
    rw [List.foldl_cons, insertLoop_lookup_go ps rest _ name, List.filter_cons]
    rcases hp : (d.name == name) with _ | _
    · rw [if_neg (by simp : ¬ (false = true))]
      rcases hfl : (rest.filter fun d2 => d2.name == name).getLast? with _ | d2
      · rw [hfl, Option.elim_none, Option.elim_none, hashInsert_lookup]
        have hnm : (name == d.name) = false := by
          rw [beq_eq_false_iff_ne]
          intro he
          rw [he] at hp
          simp at hp
        simp [hnm]
      · rw [hfl, Option.elim_some, Option.elim_some]
    · rw [if_pos rfl, List.getLast?_cons, Option.elim_some]
      rcases hfl : (rest.filter fun d2 => d2.name == name).getLast? with _ | d2
      · rw [hfl, Option.elim_none, Option.getD_none, hashInsert_lookup]
        have hnm : (name == d.name) = true := by
          have he := eq_of_beq hp
          rw [he]
          exact beq_self_eq_true _
        simp [hnm, entryOfDatum]
      · rw [hfl, Option.elim_some, Option.getD_some]

/-- C4 (amended): no `DuplicateEntry` error exists; when two input items
share a path, the builder's `HashMap::insert` loop silently keeps the last
one in input order: the table's entry for a name is built from the LAST
datum of that name in the input (src/v1.rs:570-581). -/
theorem C4_last_write_wins (ps : Nat) (data : List FileDatum)
    (name : List Nat) :
    (insertLoop ps data).lookup name =
      ((data.filter fun d => d.name == name).getLast?).map (entryOfDatum ps) := by
  rw [insertLoop, insertLoop_lookup_go]
  have helim : ∀ o : Option FileDatum,
      o.elim (List.lookup name ([] : List (List Nat × Entry)))
        (fun d => some (entryOfDatum ps d)) = o.map (entryOfDatum ps) := by
    intro o
    cases o <;> rfl
  exact helim _

/-! ## Claim C2: no sorting; order-dependent but internally consistent -/

set_option maxRecDepth 100000 in
/-- C2, counterexample: the same two-file directory handed to the builder
in its two possible `HashMap` iteration orders (the iteration order of
Rust's randomly seeded `HashMap` is unspecified and changes between
processes) produces two different `Ok` byte streams.  Building the same
unchanged input twice is therefore not byte-identical, and the builder does
not process items in byte-lexicographic path order: no sorting of any kind
exists in `Entries::new` (src/v1.rs:567-595). -/
theorem C2_counterexample :
    FileArco.make 64 [([97], [120]), ([98], [121])] ≠
      FileArco.make 64 [([98], [121]), ([97], [120])] := by decide

theorem get_of_list_eq {α : Type} {l₁ l₂ : List α} (h : l₁ = l₂) (i : Nat)
    (hi : i < l₁.length) : l₁.get ⟨i, hi⟩ = l₂.get ⟨i, h ▸ hi⟩ := by
  subst h
  rfl

theorem assignOffsets_offset_runningTotal (m : List (List Nat × Entry))
    (s i : Nat) (hi : i < (assignOffsets m s).length) :
    ((assignOffsets m s).get ⟨i, hi⟩).2.offset =
      s + (((assignOffsets m s).take i).map fun kv => kv.2.aligned_length).sum := by
  have hi2 : i < m.length := by rwa [assignOffsets_length] at hi
  rw [assignOffsets_get m s i hi2]
  show s + sumAlignedTake m i = _
  congr 1
  rw [sumAlignedTake, List.map_take, List.map_take, assignOffsets_map_aligned]

/-- C2 (amended): `Entries::new` does not sort — it processes items in the
HashMap's iteration order — but within a single build that order is
consistent: every entry's offset is the running total of the aligned
lengths of the entries before it in table order, and the write loop streams
file contents in that same table order, so the emitted content region is
the concatenation, in table order, of each file's contents zero-padded to
its aligned length. -/
theorem C2_build_order (ps : Nat) (items : List (List Nat × List Nat))
    (hnd : (items.map Prod.fst).Nodup) (bytes : List Nat)
    (hok : FileArco.make ps items = .ok bytes) :
    (∀ i (hi : i < (madeEntries ps items).files.length),
      ((madeEntries ps items).files.get ⟨i, hi⟩).2.offset =
        (((madeEntries ps items).files.take i).map
          fun kv => kv.2.aligned_length).sum) ∧
    bytes.drop (madeHeader ps items).file_offset =
      ((contentPairs ps items).map fun p =>
        p.1 ++ List.replicate (p.2 - p.1.length) 0).flatten := by
  have hfit := make_fit_of_ok ps items bytes hok
  have hb : bytes = madeBytes ps items := by
    have h2 := make_eq_ok_madeBytes ps items hfit
    rw [hok] at h2
    exact MakeResult.ok.inj h2
  constructor
  · intro i hi
    have hF := madeEntries_files_eq ps items hnd
    rw [get_of_list_eq hF i hi, assignOffsets_offset_runningTotal, Nat.zero_add]
    congr 2
    rw [hF]
  · rw [hb, madeBytes_dropfo ps items hfit, madeBytes_blocks ps items hnd]

/-! ## Claim C10: written length equals the declared length -/

/-- C10: for a consistent directory view with distinct paths (each
metadatum's length and checksum are those of the contents `make` reads
back, which `datumOf` builds in), a power-of-two page size and file sizes
fitting 64-bit arithmetic, whenever `FileArco::make` returns `Ok` the
number of bytes it wrote to the sink equals the `file_length` recorded in
the header, which is `file_offset` plus the sum of all aligned lengths;
the freshly written archive therefore passes the reader's `FileTruncated`
size check. -/
theorem C10_written_length (ps : Nat) (items : List (List Nat × List Nat))
    (k : Nat) (hk : ps = 2 ^ k) (hk64 : k < 64)
    (hnd : (items.map Prod.fst).Nodup)
    (hsmall : ∀ nc ∈ items, nc.2.length + ps ≤ 2 ^ 64)
    (bytes : List Nat) (hok : FileArco.make ps items = .ok bytes) :
    bytes.length = (madeHeader ps items).file_length ∧
    (madeHeader ps items).file_length =
      (madeHeader ps items).file_offset +
        (madeEntries ps items).total_aligned_length ∧
    ¬ (bytes.length < (madeHeader ps items).file_length) := by
  have hfit := make_fit_of_ok ps items bytes hok
  have hb : bytes = madeBytes ps items := by
    have h2 := make_eq_ok_madeBytes ps items hfit
    rw [hok] at h2
    exact MakeResult.ok.inj h2
  have hlen : bytes.length = (madeHeader ps items).file_length := by
    rw [hb]
    exact madeBytes_length ps items k hk hk64 hnd hsmall hfit
  exact ⟨hlen, madeHeader_file_length ps items, by omega⟩

/-! ## Claim C8: offset and alignment invariant of the builder -/

theorem hashInsert_mem {m : List (List Nat × Entry)} {k : List Nat}
    {v : Entry} {kv : List Nat × Entry} (h : kv ∈ hashInsert m k v) :
    kv ∈ m ∨ kv = (k, v) := by
  induction m with
  | nil =>
    simp only [hashInsert, List.mem_singleton] at h
    exact Or.inr h
  | cons kv1 rest ih =>
    obtain ⟨k1, v1⟩ := kv1
    by_cases h1 : k1 = k
    · rw [hashInsert, if_pos h1] at h
      rcases List.mem_cons.mp h with he | hm
      · exact Or.inr he
      · exact Or.inl (List.mem_cons_of_mem _ hm)
    · rw [hashInsert, if_neg h1] at h
      rcases List.mem_cons.mp h with he | hm
      · exact Or.inl (he ▸ List.mem_cons_self _ _)
      · rcases ih hm with h2 | h2
        · exact Or.inl (List.mem_cons_of_mem _ h2)
        · exact Or.inr h2

theorem insertLoop_aligned_go (ps : Nat) : ∀ (data : List FileDatum)
    (acc : List (List Nat × Entry)),
    (∀ kv ∈ acc, kv.2.aligned_length = get_aligned_length ps kv.2.length) →
    ∀ kv ∈ data.foldl (fun files datum => hashInsert files datum.name
      { offset := 0, length := datum.length,
        aligned_length := get_aligned_length ps datum.length,
        checksum := datum.checksum }) acc,
      kv.2.aligned_length = get_aligned_length ps kv.2.length
  | [], _, hacc => hacc
  | d :: rest, acc, hacc => by
    rw [List.foldl_cons]
    apply insertLoop_aligned_go ps rest
    intro kv hkv
    rcases hashInsert_mem hkv with hm | he
    · exact hacc kv hm
    · rw [he]

theorem insertLoop_aligned (ps : Nat) (data : List FileDatum) :
    ∀ kv ∈ insertLoop ps data,
      kv.2.aligned_length = get_aligned_length ps kv.2.length :=
  insertLoop_aligned_go ps data [] (by simp)

theorem sumAlignedTake_succ (m : List (List Nat × Entry)) (i : Nat)
    (hi : i < m.length) :
    sumAlignedTake m (i + 1) =
      sumAlignedTake m i + (m.get ⟨i, hi⟩).2.aligned_length := by
  have hi2 : i < (m.map fun kv => kv.2.aligned_length).length := by
    rw [List.length_map]
    exact hi
  rw [sumAlignedTake, sumAlignedTake, List.map_take, List.map_take,
    List.sum_take_succ _ i hi2, List.getElem_map]
  rfl

/-- C8: for every entries table the builder produces (any page size
`2 ^ k`, `k ≤ 64`), in build order: the first entry's offset is 0, each
next entry's offset is the previous offset plus the previous aligned
length, every aligned length is `get_aligned_length` of the entry's
length, and every offset is a multiple of the page size
(src/v1.rs:567-595, src/v1.rs:627-632). -/
theorem C8_offset_invariant (k : Nat) (hk : k ≤ 64) (data : List FileDatum) :
    (∀ h0 : 0 < (Entries.new (2 ^ k) data).files.length,
      ((Entries.new (2 ^ k) data).files.get ⟨0, h0⟩).2.offset = 0) ∧
    (∀ i (hi : i + 1 < (Entries.new (2 ^ k) data).files.length),
      ((Entries.new (2 ^ k) data).files.get ⟨i + 1, hi⟩).2.offset =
        ((Entries.new (2 ^ k) data).files.get
            ⟨i, Nat.lt_of_succ_lt hi⟩).2.offset +
          ((Entries.new (2 ^ k) data).files.get
            ⟨i, Nat.lt_of_succ_lt hi⟩).2.aligned_length) ∧
    (∀ i (hi : i < (Entries.new (2 ^ k) data).files.length),
      ((Entries.new (2 ^ k) data).files.get ⟨i, hi⟩).2.aligned_length =
        get_aligned_length (2 ^ k)
          ((Entries.new (2 ^ k) data).files.get ⟨i, hi⟩).2.length ∧
      2 ^ k ∣ ((Entries.new (2 ^ k) data).files.get ⟨i, hi⟩).2.offset) := by
  have hfileseq : (Entries.new (2 ^ k) data).files =
      assignOffsets (insertLoop (2 ^ k) data) 0 := rfl
  refine ⟨?_, ?_, ?_⟩
  · intro h0
    have h0m : 0 < (insertLoop (2 ^ k) data).length := by
      rwa [hfileseq, assignOffsets_length] at h0
    rw [get_of_list_eq hfileseq 0 h0,
      assignOffsets_get (insertLoop (2 ^ k) data) 0 0 h0m]
    rfl
  · intro i hi
    have him : i + 1 < (insertLoop (2 ^ k) data).length := by
      rwa [hfileseq, assignOffsets_length] at hi
    have him2 : i < (insertLoop (2 ^ k) data).length := Nat.lt_of_succ_lt him
    rw [get_of_list_eq hfileseq (i + 1) hi,
      get_of_list_eq hfileseq i (Nat.lt_of_succ_lt hi),
      assignOffsets_get (insertLoop (2 ^ k) data) 0 (i + 1) him,
      assignOffsets_get (insertLoop (2 ^ k) data) 0 i him2]
    show 0 + sumAlignedTake (insertLoop (2 ^ k) data) (i + 1) =
      0 + sumAlignedTake (insertLoop (2 ^ k) data) i +
        ((insertLoop (2 ^ k) data).get ⟨i, him2⟩).2.aligned_length
    rw [sumAlignedTake_succ (insertLoop (2 ^ k) data) i him2, ← Nat.add_assoc]
  · intro i hi
    have him : i < (insertLoop (2 ^ k) data).length := by
      rwa [hfileseq, assignOffsets_length] at hi
    rw [get_of_list_eq hfileseq i hi,
      assignOffsets_get (insertLoop (2 ^ k) data) 0 i him]
    constructor
    · show ((insertLoop (2 ^ k) data).get ⟨i, him⟩).2.aligned_length =
        get_aligned_length (2 ^ k)
          ((insertLoop (2 ^ k) data).get ⟨i, him⟩).2.length
      exact insertLoop_aligned (2 ^ k) data _
        (List.get_mem (insertLoop (2 ^ k) data) i him)
    · show 2 ^ k ∣ 0 + sumAlignedTake (insertLoop (2 ^ k) data) i
      rw [Nat.zero_add, sumAlignedTake]
      apply List.dvd_sum
      intro x hx
      rcases List.mem_map.mp hx with ⟨kv, hkv, rfl⟩
      have hkv2 : kv ∈ insertLoop (2 ^ k) data :=
        List.mem_of_mem_take hkv
      rw [insertLoop_aligned (2 ^ k) data kv hkv2]
      exact get_aligned_length_dvd _ hk


/-- The two-file input used as the concrete witness instance of C2. -/
def itemsC2 : List (List Nat × List Nat) := [([97], [120]), ([98], [121, 122])]

set_option maxRecDepth 100000 in
theorem C2_build_order_witness :
    ((itemsC2.map Prod.fst).Nodup) ∧
    (FileArco.make 64 itemsC2 = .ok (madeBytes 64 itemsC2)) ∧
    ((∀ i (hi : i < (madeEntries 64 itemsC2).files.length),
      ((madeEntries 64 itemsC2).files.get ⟨i, hi⟩).2.offset =
        (((madeEntries 64 itemsC2).files.take i).map
          fun kv => kv.2.aligned_length).sum) ∧
    (madeBytes 64 itemsC2).drop (madeHeader 64 itemsC2).file_offset =
      ((contentPairs 64 itemsC2).map fun p =>
        p.1 ++ List.replicate (p.2 - p.1.length) 0).flatten) :=
  ⟨by decide, by decide,
    C2_build_order 64 itemsC2 (by decide) (madeBytes 64 itemsC2) (by decide)⟩

/-- The two-file input used as the concrete witness instance of C10. -/
def itemsC10 : List (List Nat × List Nat) := [([97], [120, 121]), ([98], [])]

set_option maxRecDepth 100000 in
theorem C10_written_length_witness :
    (FileArco.make 64 itemsC10 = .ok (madeBytes 64 itemsC10)) ∧
    ((madeBytes 64 itemsC10).length = (madeHeader 64 itemsC10).file_length ∧
    (madeHeader 64 itemsC10).file_length =
      (madeHeader 64 itemsC10).file_offset +
        (madeEntries 64 itemsC10).total_aligned_length ∧
    ¬ ((madeBytes 64 itemsC10).length < (madeHeader 64 itemsC10).file_length)) :=
  ⟨by decide,
    C10_written_length 64 itemsC10 6 (by norm_num) (by norm_num) (by decide)
      (by decide) (madeBytes 64 itemsC10) (by decide)⟩

/-- The two-file input used as the concrete witness instance of C8. -/
def dataC8 : List FileDatum :=
  [{ name := [97], length := 5, checksum := 11 },
   { name := [98], length := 130, checksum := 12 }]

theorem C8_offset_invariant_witness :
    (6 ≤ 64) ∧
    ((∀ h0 : 0 < (Entries.new (2 ^ 6) dataC8).files.length,
      ((Entries.new (2 ^ 6) dataC8).files.get ⟨0, h0⟩).2.offset = 0) ∧
    (∀ i (hi : i + 1 < (Entries.new (2 ^ 6) dataC8).files.length),
      ((Entries.new (2 ^ 6) dataC8).files.get ⟨i + 1, hi⟩).2.offset =
        ((Entries.new (2 ^ 6) dataC8).files.get
            ⟨i, Nat.lt_of_succ_lt hi⟩).2.offset +
          ((Entries.new (2 ^ 6) dataC8).files.get
            ⟨i, Nat.lt_of_succ_lt hi⟩).2.aligned_length) ∧
    (∀ i (hi : i < (Entries.new (2 ^ 6) dataC8).files.length),
      ((Entries.new (2 ^ 6) dataC8).files.get ⟨i, hi⟩).2.aligned_length =
        get_aligned_length (2 ^ 6)
          ((Entries.new (2 ^ 6) dataC8).files.get ⟨i, hi⟩).2.length ∧
      2 ^ 6 ∣ ((Entries.new (2 ^ 6) dataC8).files.get ⟨i, hi⟩).2.offset)) :=
  ⟨by decide, C8_offset_invariant 6 (by decide) dataC8⟩


/-! ## Claim C1: round trip holds only when the table fits the offset -/

/-- One file whose 24-byte relative path makes the serialized entries
table 72 bytes long at page size 64: `align_up(56 + 72, 64) = 128` but
`56 + 8 + 72 = 136 > 128`.  (At the common page size 4096 the same
arithmetic fails for a 3985-byte path: `align_up(56 + 4033, 4096) = 4096 <
56 + 8 + 4033`.) -/
def longPathItems : List (List Nat × List Nat) :=
  [(List.replicate 24 97, [120])]

set_option maxRecDepth 100000 in
/-- C1, counterexample: the round trip does not hold for every directory.
For this one-file directory `FileArco::make` never produces an archive at
all: `Header::new` computes `file_offset = align_up(56 + entries_length,
page_size)` without the 8 checksum bytes (src/v1.rs:546), so the padding
subtraction `file_offset - (header_length + checksum_length +
entries_length)` at src/v1.rs:259 underflows `usize` and the process
panics. -/
theorem C1_counterexample :
    FileArco.make 64 longPathItems = .panicked := by decide

/-- C1 (amended): the round trip does hold whenever the serialized header,
its 8 checksum bytes and the serialized table fit within the computed
`file_offset`: for a directory with distinct, valid-UTF-8 paths, byte
contents, a power-of-two page size and sizes fitting 64-bit arithmetic,
`make` succeeds, `new` accepts its output, and `get` on every original
path yields a view with the original bytes whose stored checksum matches
(`is_valid`), per src/v1.rs:230-280, 68-151, 171-187, 338-342. -/
theorem C1_roundtrip (sps ps : Nat) (items : List (List Nat × List Nat))
    (k : Nat) (hk : ps = 2 ^ k) (hk64 : k < 64)
    (hnd : (items.map Prod.fst).Nodup)
    (hutf : ∀ nc ∈ items, validUtf8 nc.1 = true)
    (hnameb : ∀ nc ∈ items, ∀ b ∈ nc.1, b < 256)
    (hcontb : ∀ nc ∈ items, ∀ b ∈ nc.2, b < 256)
    (hsmall : ∀ nc ∈ items, nc.2.length + ps ≤ 2 ^ 64)
    (hfit : 56 + 8 + (serializeEntries (madeEntries ps items)).length ≤
      (madeHeader ps items).file_offset)
    (hfl : (madeHeader ps items).file_length < 2 ^ 64) :
    ∃ bytes inner, FileArco.make ps items = .ok bytes ∧
      FileArco.new sps bytes = .ok inner ∧
      ∀ nc ∈ items, ∃ fr, FileArco.get inner nc.1 = some fr ∧
        fr.as_slice = nc.2 ∧ fr.is_valid = true := by
  refine ⟨madeBytes ps items,
    { file_offset := (madeHeader ps items).file_offset, page_size := ps,
      entries := madeEntries ps items, map := madeBytes ps items },
    make_eq_ok_madeBytes ps items hfit,
    new_of_make sps ps items k hk hk64 hnd hutf hnameb hcontb hsmall hfit hfl,
    ?_⟩
  intro nc hmem
  exact get_of_make ps items k hk hk64 hnd hsmall hfit nc hmem

/-- The two-file input used as the concrete witness instance of C1. -/
def itemsC1 : List (List Nat × List Nat) :=
  [([97, 46, 116, 120, 116], [97, 98, 99]), ([98], [])]

set_option maxRecDepth 100000 in
theorem C1_roundtrip_witness :
    ∃ bytes inner, FileArco.make 64 itemsC1 = .ok bytes ∧
      FileArco.new 4096 bytes = .ok inner ∧
      ∀ nc ∈ itemsC1, ∃ fr, FileArco.get inner nc.1 = some fr ∧
        fr.as_slice = nc.2 ∧ fr.is_valid = true :=
  C1_roundtrip 4096 64 itemsC1 6 (by norm_num) (by norm_num) (by decide)
    (by decide) (by decide) (by decide) (by decide) (by decide) (by decide)


/-! ## The reader's actual validation cascade -/

theorem new_cascade_tooSmall (sps : Nat) (map : List Nat)
    (h : map.length < 64) : FileArco.new sps map = .err .FileTooSmall := by
  have h56 : (serializeHeader (Header.new sps 0 0 0)).length = 56 :=
    serializeHeader_length _ rfl
  simp only [FileArco.new, h56]
  rw [if_pos (by omega)]

theorem new_cascade_notArchive (sps : Nat) (map : List Nat)
    (hlen : 64 ≤ map.length)
    (hid : (deserializeHeader (map.take 56)).id ≠ FILEARCO_ID) :
    FileArco.new sps map = .err .NotArchive := by
  have h56 : (serializeHeader (Header.new sps 0 0 0)).length = 56 :=
    serializeHeader_length _ rfl
  simp only [FileArco.new, h56]
  rw [if_neg (by omega), if_pos hid]

theorem new_cascade_notV1 (sps : Nat) (map : List Nat)
    (hlen : 64 ≤ map.length)
    (hid : (deserializeHeader (map.take 56)).id = FILEARCO_ID)
    (hv : (deserializeHeader (map.take 56)).version_number ≠ 1) :
    FileArco.new sps map = .err .NotV1Archive := by
  have h56 : (serializeHeader (Header.new sps 0 0 0)).length = 56 :=
    serializeHeader_length _ rfl
  simp only [FileArco.new, h56]
  rw [if_neg (by omega), if_neg (not_not_intro hid), if_pos hv]

theorem new_cascade_corruptedHeader (sps : Nat) (map : List Nat)
    (hlen : 64 ≤ map.length)
    (hid : (deserializeHeader (map.take 56)).id = FILEARCO_ID)
    (hv : (deserializeHeader (map.take 56)).version_number = 1)
    (hck : crc64 (map.take 56) ≠ leDecode ((map.drop 56).take 8)) :
    FileArco.new sps map = .err .CorruptedHeader := by
  have h56 : (serializeHeader (Header.new sps 0 0 0)).length = 56 :=
    serializeHeader_length _ rfl
  simp only [FileArco.new, h56]
  rw [if_neg (by omega), if_neg (not_not_intro hid), if_neg (not_not_intro hv),
    if_pos hck]

theorem new_cascade_truncated (sps : Nat) (map : List Nat)
    (hlen : 64 ≤ map.length)
    (hid : (deserializeHeader (map.take 56)).id = FILEARCO_ID)
    (hv : (deserializeHeader (map.take 56)).version_number = 1)
    (hck : crc64 (map.take 56) = leDecode ((map.drop 56).take 8))
    (htr : map.length < (deserializeHeader (map.take 56)).file_length) :
    FileArco.new sps map = .err .FileTruncated := by
  have h56 : (serializeHeader (Header.new sps 0 0 0)).length = 56 :=
    serializeHeader_length _ rfl
  simp only [FileArco.new, h56]
  rw [if_neg (by omega), if_neg (not_not_intro hid), if_neg (not_not_intro hv),
    if_neg (not_not_intro hck), if_pos htr]

theorem new_cascade_oob (sps : Nat) (map : List Nat)
    (hlen : 64 ≤ map.length)
    (hid : (deserializeHeader (map.take 56)).id = FILEARCO_ID)
    (hv : (deserializeHeader (map.take 56)).version_number = 1)
    (hck : crc64 (map.take 56) = leDecode ((map.drop 56).take 8))
    (htr : ¬ map.length < (deserializeHeader (map.take 56)).file_length)
    (hoob : map.length < 8 + 56 + (deserializeHeader (map.take 56)).entries_length) :
    FileArco.new sps map = .readOutOfBounds := by
  have h56 : (serializeHeader (Header.new sps 0 0 0)).length = 56 :=
    serializeHeader_length _ rfl
  simp only [FileArco.new, h56]
  rw [if_neg (by omega), if_neg (not_not_intro hid), if_neg (not_not_intro hv),
    if_neg (not_not_intro hck), if_neg htr, if_pos hoob]

theorem new_cascade_panicked (sps : Nat) (map : List Nat)
    (hlen : 64 ≤ map.length)
    (hid : (deserializeHeader (map.take 56)).id = FILEARCO_ID)
    (hv : (deserializeHeader (map.take 56)).version_number = 1)
    (hck : crc64 (map.take 56) = leDecode ((map.drop 56).take 8))
    (htr : ¬ map.length < (deserializeHeader (map.take 56)).file_length)
    (hoob : ¬ map.length < 8 + 56 + (deserializeHeader (map.take 56)).entries_length)
    (hdes : deserializeEntries ((map.drop (8 + 56)).take
      (deserializeHeader (map.take 56)).entries_length) = none) :
    FileArco.new sps map = .panicked := by
  have h56 : (serializeHeader (Header.new sps 0 0 0)).length = 56 :=
    serializeHeader_length _ rfl
  simp only [FileArco.new, h56]
  rw [if_neg (by omega), if_neg (not_not_intro hid), if_neg (not_not_intro hv),
    if_neg (not_not_intro hck), if_neg htr, if_neg hoob, hdes, Option.elim_none]

theorem new_cascade_corruptedTable (sps : Nat) (map : List Nat)
    (hlen : 64 ≤ map.length)
    (hid : (deserializeHeader (map.take 56)).id = FILEARCO_ID)
    (hv : (deserializeHeader (map.take 56)).version_number = 1)
    (hck : crc64 (map.take 56) = leDecode ((map.drop 56).take 8))
    (htr : ¬ map.length < (deserializeHeader (map.take 56)).file_length)
    (hoob : ¬ map.length < 8 + 56 + (deserializeHeader (map.take 56)).entries_length)
    (e : Entries)
    (hdes : deserializeEntries ((map.drop (8 + 56)).take
      (deserializeHeader (map.take 56)).entries_length) = some e)
    (hck2 : crc64 ((map.drop (8 + 56)).take
        (deserializeHeader (map.take 56)).entries_length) ≠
      (deserializeHeader (map.take 56)).entries_checksum) :
    FileArco.new sps map = .err .CorruptedEntriesTable := by
  have h56 : (serializeHeader (Header.new sps 0 0 0)).length = 56 :=
    serializeHeader_length _ rfl
  simp only [FileArco.new, h56]
  rw [if_neg (by omega), if_neg (not_not_intro hid), if_neg (not_not_intro hv),
    if_neg (not_not_intro hck), if_neg htr, if_neg hoob, hdes, Option.elim_some,
    if_pos hck2]

/-! ## Claim C7: the actual order of the load-time checks -/

/-- A 66-byte archive whose header (with its checksum) is entirely valid and
declares a 2-byte entries table, but whose table bytes `[255, 255]` fail
bincode deserialization and do not match the stored `entries_checksum`. -/
def crafted7Header : Header :=
  { id := FILEARCO_ID, version_number := 1, file_length := 66, file_offset := 64,
    page_size := 4096, entries_length := 2, entries_checksum := 0 }

def crafted7 : List Nat :=
  serializeHeader crafted7Header ++
    leBytes 8 (crc64 (serializeHeader crafted7Header)) ++ [255, 255]

/-- A valid 64-byte header-only file whose header declares a gigantic
entries table lying entirely past the end of the mapping. -/
def crafted7bHeader : Header :=
  { id := FILEARCO_ID, version_number := 1, file_length := 64, file_offset := 64,
    page_size := 4096, entries_length := 1000000, entries_checksum := 0 }

def crafted7b : List Nat :=
  serializeHeader crafted7bHeader ++
    leBytes 8 (crc64 (serializeHeader crafted7bHeader))

set_option maxRecDepth 100000 in
/-- C7, counterexample: the claimed order is wrong at steps 6-8.  On
`crafted7` the entries-table checksum does not match, so under the claimed
order (checksum before deserialization) `new` would return
`CorruptedEntriesTable`; the code instead deserializes first
(src/v1.rs:133, `deserialize(sl).unwrap()`) and panics.  On `crafted7b`
the claimed check 6 (`mapped size >= file_offset + entries_length`,
`FileTooSmall`) would fire; no such check exists in src/v1.rs:84-141, and
the code instead builds a slice of 1000000 bytes past the 64-byte mapping
(src/v1.rs:129-130), an out-of-bounds read. -/
theorem C7_counterexample :
    FileArco.new 4096 crafted7 = .panicked ∧
    crc64 ((crafted7.drop (8 + 56)).take 2) ≠ crafted7Header.entries_checksum ∧
    FileArco.new 4096 crafted7b = .readOutOfBounds :=
  ⟨by decide, by decide, by decide⟩

/-- C7 (amended): the checks of `FileArco::new` run in this order, the
first failing one deciding the outcome: (1) mapped size >= 64 else
`FileTooSmall`; (2) magic id else `NotArchive`; (3) version 1 else
`NotV1Archive`; (4) header checksum else `CorruptedHeader`; (5) mapped
size >= `file_length` else `FileTruncated`; then — with no size check
against `file_offset + entries_length` or `64 + entries_length` — the
table slice is built (an out-of-bounds read when `64 + entries_length`
exceeds the mapping) and deserialized, a deserialization failure panics
via `.unwrap()` (src/v1.rs:133), and only then is the table checksum
compared, `CorruptedEntriesTable` on mismatch (src/v1.rs:84-141). -/
theorem C7_validation_order (sps : Nat) (map : List Nat) :
    (map.length < 64 → FileArco.new sps map = .err .FileTooSmall) ∧
    (64 ≤ map.length →
      (deserializeHeader (map.take 56)).id ≠ FILEARCO_ID →
      FileArco.new sps map = .err .NotArchive) ∧
    (64 ≤ map.length →
      (deserializeHeader (map.take 56)).id = FILEARCO_ID →
      (deserializeHeader (map.take 56)).version_number ≠ 1 →
      FileArco.new sps map = .err .NotV1Archive) ∧
    (64 ≤ map.length →
      (deserializeHeader (map.take 56)).id = FILEARCO_ID →
      (deserializeHeader (map.take 56)).version_number = 1 →
      crc64 (map.take 56) ≠ leDecode ((map.drop 56).take 8) →
      FileArco.new sps map = .err .CorruptedHeader) ∧
    (64 ≤ map.length →
      (deserializeHeader (map.take 56)).id = FILEARCO_ID →
      (deserializeHeader (map.take 56)).version_number = 1 →
      crc64 (map.take 56) = leDecode ((map.drop 56).take 8) →
      map.length < (deserializeHeader (map.take 56)).file_length →
      FileArco.new sps map = .err .FileTruncated) ∧
    (64 ≤ map.length →
      (deserializeHeader (map.take 56)).id = FILEARCO_ID →
      (deserializeHeader (map.take 56)).version_number = 1 →
      crc64 (map.take 56) = leDecode ((map.drop 56).take 8) →
      ¬ map.length < (deserializeHeader (map.take 56)).file_length →
      map.length < 8 + 56 + (deserializeHeader (map.take 56)).entries_length →
      FileArco.new sps map = .readOutOfBounds) ∧
    (64 ≤ map.length →
      (deserializeHeader (map.take 56)).id = FILEARCO_ID →
      (deserializeHeader (map.take 56)).version_number = 1 →
      crc64 (map.take 56) = leDecode ((map.drop 56).take 8) →
      ¬ map.length < (deserializeHeader (map.take 56)).file_length →
      ¬ map.length < 8 + 56 + (deserializeHeader (map.take 56)).entries_length →
      deserializeEntries ((map.drop (8 + 56)).take
        (deserializeHeader (map.take 56)).entries_length) = none →
      FileArco.new sps map = .panicked) ∧
    (64 ≤ map.length →
      (deserializeHeader (map.take 56)).id = FILEARCO_ID →
      (deserializeHeader (map.take 56)).version_number = 1 →
      crc64 (map.take 56) = leDecode ((map.drop 56).take 8) →
      ¬ map.length < (deserializeHeader (map.take 56)).file_length →
      ¬ map.length < 8 + 56 + (deserializeHeader (map.take 56)).entries_length →
      ∀ e : Entries,
      deserializeEntries ((map.drop (8 + 56)).take
        (deserializeHeader (map.take 56)).entries_length) = some e →
      crc64 ((map.drop (8 + 56)).take
          (deserializeHeader (map.take 56)).entries_length) ≠
        (deserializeHeader (map.take 56)).entries_checksum →
      FileArco.new sps map = .err .CorruptedEntriesTable) :=
  ⟨new_cascade_tooSmall sps map,
   new_cascade_notArchive sps map,
   new_cascade_notV1 sps map,
   new_cascade_corruptedHeader sps map,
   new_cascade_truncated sps map,
   new_cascade_oob sps map,
   new_cascade_panicked sps map,
   fun h1 h2 h3 h4 h5 h6 e h7 h8 =>
     new_cascade_corruptedTable sps map h1 h2 h3 h4 h5 h6 e h7 h8⟩


/-! ## Claim C5: what a single flipped byte actually produces -/

theorem set_ne_of_getD_ne {l : List Nat} {p b' : Nat} (hp : p < l.length)
    (hne : b' ≠ l.getD p 0) : l.set p b' ≠ l := by
  intro h
  have h2 : (l.set p b')[p]? = some b' := List.getElem?_set_self hp
  rw [h, List.getElem?_eq_getElem hp] at h2
  rw [List.getD_eq_getElem l 0 hp] at hne
  exact hne (Option.some.inj h2).symm

theorem crc64_set_ne (l : List Nat) (p b' : Nat) (hp : p < l.length)
    (hl : ∀ b ∈ l, b < 256) (hb' : b' < 256) (hne : b' ≠ l.getD p 0) :
    crc64 (l.set p b') ≠ crc64 l := by
  rw [List.getD_eq_getElem l 0 hp] at hne
  have hsplit : l = l.take p ++ l[p] :: l.drop (p + 1) := by
    conv_lhs => rw [← List.take_append_drop p l, ← List.getElem_cons_drop l p hp]
  have h2 : crc64 (l.take p ++ b' :: l.drop (p + 1)) ≠
      crc64 (l.take p ++ l[p] :: l.drop (p + 1)) :=
    crc64_flip_ne _ _ (lt_trans hb' (by norm_num))
      (lt_trans (hl _ (List.getElem_mem hp)) (by norm_num)) hne
  rw [List.set_eq_take_cons_drop b' hp]
  intro h
  exact h2 (h.trans (congrArg crc64 hsplit))

theorem getD_slice (l : List Nat) (n t i : Nat) (hi : i < t)
    (hl : n + i < l.length) :
    ((l.drop n).take t).getD i 0 = l.getD (n + i) 0 := by
  have ht : i < ((l.drop n).take t).length := by
    rw [List.length_take, List.length_drop]
    omega
  rw [List.getD_eq_getElem _ 0 ht, List.getD_eq_getElem _ 0 hl,
    List.getElem_take, List.getElem_drop]

theorem take_take_of_le {n m : Nat} (l : List Nat) (h : n ≤ m) :
    (l.take m).take n = l.take n := by
  rw [List.take_take, Nat.min_eq_left h]

theorem slice56_8 (l : List Nat) : ((l.take 56).drop 8).take 8 =
    (l.drop 8).take 8 := by
  rw [List.drop_take]
  exact take_take_of_le _ (by norm_num)

theorem serializeHeader_assoc (h : Header) :
    serializeHeader h =
      h.id ++ (leBytes 8 h.version_number ++ (leBytes 8 h.file_length ++
        (leBytes 8 h.file_offset ++ (leBytes 8 h.page_size ++
        (leBytes 8 h.entries_length ++ leBytes 8 h.entries_checksum))))) := by
  simp [serializeHeader, List.append_assoc]

theorem serializeHeader_drop8 (h : Header) (hid : h.id.length = 8) :
    (serializeHeader h).drop 8 =
      leBytes 8 h.version_number ++ (leBytes 8 h.file_length ++
        (leBytes 8 h.file_offset ++ (leBytes 8 h.page_size ++
        (leBytes 8 h.entries_length ++ leBytes 8 h.entries_checksum)))) := by
  rw [serializeHeader_assoc]
  exact drop_append_of_length _ _ _ hid

/-- C5 (amended): flipping one byte of a freshly written archive is always
detected, but the error depends on the region: a flip inside the 8 magic
bytes gives `NotArchive`; inside the version field `NotV1Archive`; inside
the rest of the 56-byte header, or inside the 8 stored header-checksum
bytes, `CorruptedHeader`; inside the entries-table region either the
bincode deserialization fails first and the process panics
(src/v1.rs:133) or the table checksum rejects it with
`CorruptedEntriesTable`.  `open` never accepts the flipped archive
silently, but the claimed error attribution (any header-region flip gives
`CorruptedHeader`, any table flip gives `CorruptedEntriesTable`, no panic)
is wrong. -/
theorem C5_flip (sps ps : Nat) (items : List (List Nat × List Nat))
    (k : Nat) (hk : ps = 2 ^ k) (hk64 : k < 64)
    (hnd : (items.map Prod.fst).Nodup)
    (hutf : ∀ nc ∈ items, validUtf8 nc.1 = true)
    (hnameb : ∀ nc ∈ items, ∀ b ∈ nc.1, b < 256)
    (hcontb : ∀ nc ∈ items, ∀ b ∈ nc.2, b < 256)
    (hsmall : ∀ nc ∈ items, nc.2.length + ps ≤ 2 ^ 64)
    (hfit : 56 + 8 + (serializeEntries (madeEntries ps items)).length ≤
      (madeHeader ps items).file_offset)
    (hfl : (madeHeader ps items).file_length < 2 ^ 64)
    (p b' : Nat) (hb' : b' < 256)
    (hne : b' ≠ (madeBytes ps items).getD p 0) :
    (p < 8 → FileArco.new sps ((madeBytes ps items).set p b') =
      .err .NotArchive) ∧
    (8 ≤ p → p < 16 → FileArco.new sps ((madeBytes ps items).set p b') =
      .err .NotV1Archive) ∧
    (16 ≤ p → p < 64 → FileArco.new sps ((madeBytes ps items).set p b') =
      .err .CorruptedHeader) ∧
    (64 ≤ p → p < 64 + (serializeEntries (madeEntries ps items)).length →
      FileArco.new sps ((madeBytes ps items).set p b') = .panicked ∨
      FileArco.new sps ((madeBytes ps items).set p b') =
        .err .CorruptedEntriesTable) := by
  have hlenV : (madeBytes ps items).length = (madeHeader ps items).file_length :=
    madeBytes_length ps items k hk hk64 hnd hsmall hfit
  have hfoeq := madeHeader_file_length ps items
  have h64E : 64 + (serializeEntries (madeEntries ps items)).length ≤
      (madeBytes ps items).length := by omega
  have hlen' : ((madeBytes ps items).set p b').length =
      (madeBytes ps items).length := List.length_set _ _ _
  have h64 : 64 ≤ ((madeBytes ps items).set p b').length := by omega
  have ht56 := madeBytes_take56 ps items
  have hck8 := madeBytes_ck ps items
  have htab := madeBytes_table ps items
  have hHb : ∀ b ∈ serializeHeader (madeHeader ps items), b < 256 := by
    apply serializeHeader_lt
    intro b hb
    have hb2 : b ∈ FILEARCO_ID := hb
    simp only [FILEARCO_ID, List.mem_cons, List.not_mem_nil, or_false] at hb2
    rcases hb2 with h | h | h | h | h | h | h | h <;> omega
  have hCK : crc64 (serializeHeader (madeHeader ps items)) < 2 ^ 64 :=
    crc64_lt fun b hb => lt_trans (hHb b hb) (by norm_num)
  have hfnames : ∀ kv ∈ (madeEntries ps items).files, ∀ b ∈ kv.1, b < 256 := by
    intro kv hkv b hb
    have h1 : kv.1 ∈ (madeEntries ps items).files.map Prod.fst :=
      List.mem_map_of_mem _ hkv
    rw [madeEntries_map_fst ps items hnd] at h1
    rcases List.mem_map.mp h1 with ⟨nc, hnc, heq⟩
    exact hnameb nc hnc b (by rw [heq]; exact hb)
  have hTb : ∀ b ∈ serializeEntries (madeEntries ps items), b < 256 :=
    serializeEntries_lt _ hfnames
  have ht8 : (madeBytes ps items).take 8 = FILEARCO_ID := by
    have h1 : (madeBytes ps items).take 8 =
        ((madeBytes ps items).take 56).take 8 :=
      (take_take_of_le _ (by norm_num)).symm
    rw [h1, ht56, serializeHeader_assoc]
    exact take_append_of_length _ _ _ (madeHeader_id_length ps items)
  have hvB : ((madeBytes ps items).drop 8).take 8 = leBytes 8 1 := by
    have h1 : ((madeBytes ps items).drop 8).take 8 =
        (((madeBytes ps items).take 56).drop 8).take 8 :=
      (slice56_8 _).symm
    rw [h1, ht56, serializeHeader_drop8 _ (madeHeader_id_length ps items),
      take_append_of_length _ _ _ (leBytes_length 8 _)]
    rfl
  have hid8 : 8 ≤ p →
      (deserializeHeader (((madeBytes ps items).set p b').take 56)).id =
        FILEARCO_ID := by
    intro hp8
    show (((madeBytes ps items).set p b').take 56).take 8 = FILEARCO_ID
    rw [take_take_of_le _ (by norm_num), List.set_take,
      List.set_eq_of_length_le (by rw [List.length_take]; omega), ht8]
  have hver16 : 16 ≤ p →
      (deserializeHeader (((madeBytes ps items).set p b').take 56)).version_number
        = 1 := by
    intro hp16
    show leDecode (((((madeBytes ps items).set p b').take 56).drop 8).take 8) = 1
    rw [slice56_8, List.drop_set, if_neg (by omega), List.set_take,
      List.set_eq_of_length_le (by rw [List.length_take, List.length_drop]; omega),
      hvB, leDecode_leBytes8 1 (by norm_num)]
  refine ⟨?_, ?_, ?_, ?_⟩
  · intro hp
    refine new_cascade_notArchive sps _ h64 ?_
    have hid : (deserializeHeader (((madeBytes ps items).set p b').take 56)).id =
        FILEARCO_ID.set p b' := by
      show (((madeBytes ps items).set p b').take 56).take 8 = FILEARCO_ID.set p b'
      rw [take_take_of_le _ (by norm_num), List.set_take, ht8]
    rw [hid]
    refine set_ne_of_getD_ne (by rw [show FILEARCO_ID.length = 8 from rfl]; omega) ?_
    have h1 : FILEARCO_ID.getD p 0 = (madeBytes ps items).getD p 0 := by
      rw [← ht8]
      have h2 := getD_slice (madeBytes ps items) 0 8 p hp (by omega)
      simpa using h2
    rw [h1]
    exact hne
  · intro hp8 hp16
    refine new_cascade_notV1 sps _ h64 (hid8 hp8) ?_
    show leDecode (((((madeBytes ps items).set p b').take 56).drop 8).take 8) ≠ 1
    rw [slice56_8, List.drop_set, if_neg (by omega), List.set_take, hvB]
    have hne' : b' ≠ (leBytes 8 1).getD (p - 8) 0 := by
      rw [← hvB, getD_slice _ 8 8 _ (by omega) (by omega),
        show 8 + (p - 8) = p from by omega]
      exact hne
    have hsetne : (leBytes 8 1).set (p - 8) b' ≠ leBytes 8 1 :=
      set_ne_of_getD_ne (by rw [leBytes_length]; omega) hne'
    intro hdec
    apply hsetne
    apply leDecode_inj _ _ (by rw [List.length_set])
      (fun b hb => (List.mem_or_eq_of_mem_set hb).elim (leBytes_lt 8 1 b)
        (fun h => by omega))
      (leBytes_lt 8 1)
    rw [hdec, leDecode_leBytes8 1 (by norm_num)]
  · intro hp16 hp64
    by_cases hp56 : p < 56
    · refine new_cascade_corruptedHeader sps _ h64 (hid8 (by omega))
        (hver16 hp16) ?_
      have hh : ((madeBytes ps items).set p b').take 56 =
          (serializeHeader (madeHeader ps items)).set p b' := by
        rw [List.set_take, ht56]
      have hch : (((madeBytes ps items).set p b').drop 56).take 8 =
          leBytes 8 (crc64 (serializeHeader (madeHeader ps items))) := by
        rw [List.drop_set, if_pos hp56, hck8]
      rw [hh, hch, leDecode_leBytes8 _ hCK]
      refine crc64_set_ne _ _ _
        (by rw [serializeHeader_madeHeader_length]; omega) hHb hb' ?_
      have h1 : (serializeHeader (madeHeader ps items)).getD p 0 =
          (madeBytes ps items).getD p 0 := by
        rw [← ht56]
        have h2 := getD_slice (madeBytes ps items) 0 56 p (by omega) (by omega)
        simpa using h2
      rw [h1]
      exact hne
    · refine new_cascade_corruptedHeader sps _ h64 (hid8 (by omega))
        (hver16 hp16) ?_
      have hh : ((madeBytes ps items).set p b').take 56 =
          (madeBytes ps items).take 56 := by
        rw [List.set_take,
          List.set_eq_of_length_le (by rw [List.length_take]; omega)]
      have hch : (((madeBytes ps items).set p b').drop 56).take 8 =
          (leBytes 8 (crc64 (serializeHeader (madeHeader ps items)))).set
            (p - 56) b' := by
        rw [List.drop_set, if_neg (by omega), List.set_take, hck8]
      rw [hh, hch, ht56]
      have hne' : b' ≠
          (leBytes 8 (crc64 (serializeHeader (madeHeader ps items)))).getD
            (p - 56) 0 := by
        rw [← hck8, getD_slice _ 56 8 _ (by omega) (by omega),
          show 56 + (p - 56) = p from by omega]
        exact hne
      have hsetne : (leBytes 8 (crc64 (serializeHeader (madeHeader ps items)))).set
          (p - 56) b' ≠
            leBytes 8 (crc64 (serializeHeader (madeHeader ps items))) :=
        set_ne_of_getD_ne (by rw [leBytes_length]; omega) hne'
      intro hdec
      apply hsetne
      apply leDecode_inj _ _ (by rw [List.length_set])
        (fun b hb => (List.mem_or_eq_of_mem_set hb).elim (leBytes_lt 8 _ b)
          (fun h => by omega))
        (leBytes_lt 8 _)
      rw [leDecode_leBytes8 _ hCK, ← hdec]
  · intro hp64 hpE
    have hps : ps < 2 ^ 64 := by
      rw [hk]
      exact Nat.pow_lt_pow_right (by norm_num) hk64
    have hEfl : (serializeEntries (madeEntries ps items)).length < 2 ^ 64 := by
      omega
    have hecrc : crc64 (serializeEntries (madeEntries ps items)) < 2 ^ 64 :=
      crc64_lt fun b hb => lt_trans (hTb b hb) (by norm_num)
    have hdeser : deserializeHeader (serializeHeader (madeHeader ps items))
        = madeHeader ps items :=
      deserializeHeader_serializeHeader _ rfl
        (by rw [show (madeHeader ps items).version_number = 1 from rfl]; norm_num)
        hfl (by omega)
        (by rw [show (madeHeader ps items).page_size = ps from rfl]; exact hps)
        hEfl
        (by rw [show (madeHeader ps items).entries_checksum =
          crc64 (serializeEntries (madeEntries ps items)) from rfl]; exact hecrc)
    have hh : ((madeBytes ps items).set p b').take 56 =
        (madeBytes ps items).take 56 := by
      rw [List.set_take,
        List.set_eq_of_length_le (by rw [List.length_take]; omega)]
    have hdH : deserializeHeader (((madeBytes ps items).set p b').take 56) =
        madeHeader ps items := by
      rw [hh, ht56]
      exact hdeser
    have hckeq : crc64 (((madeBytes ps items).set p b').take 56) =
        leDecode ((((madeBytes ps items).set p b').drop 56).take 8) := by
      have hch : (((madeBytes ps items).set p b').drop 56).take 8 =
          leBytes 8 (crc64 (serializeHeader (madeHeader ps items))) := by
        rw [List.drop_set, if_neg (by omega), List.set_take,
          List.set_eq_of_length_le
            (by rw [List.length_take, List.length_drop]; omega), hck8]
      rw [hh, hch, ht56, leDecode_leBytes8 _ hCK]
    have htr : ¬ ((madeBytes ps items).set p b').length <
        (deserializeHeader (((madeBytes ps items).set p b').take 56)).file_length := by
      rw [hdH, hlen', hlenV]
      omega
    have hoob : ¬ ((madeBytes ps items).set p b').length < 8 + 56 +
        (deserializeHeader (((madeBytes ps items).set p b').take 56)).entries_length := by
      rw [hdH, hlen', hlenV]
      rw [show (madeHeader ps items).entries_length =
        (serializeEntries (madeEntries ps items)).length from rfl]
      omega
    have hsl : (((madeBytes ps items).set p b').drop (8 + 56)).take
        (deserializeHeader (((madeBytes ps items).set p b').take 56)).entries_length
        = (serializeEntries (madeEntries ps items)).set (p - 64) b' := by
      rw [hdH, show (madeHeader ps items).entries_length =
        (serializeEntries (madeEntries ps items)).length from rfl,
        show (8 + 56 : Nat) = 64 from rfl,
        List.drop_set, if_neg (by omega), List.set_take, htab]
    rcases hdes : deserializeEntries ((((madeBytes ps items).set p b').drop (8 + 56)).take
        (deserializeHeader (((madeBytes ps items).set p b').take 56)).entries_length)
      with _ | e
    · exact Or.inl (new_cascade_panicked sps _ h64 (hid8 (by omega))
        (hver16 (by omega)) hckeq htr hoob hdes)
    · refine Or.inr (new_cascade_corruptedTable sps _ h64 (hid8 (by omega))
        (hver16 (by omega)) hckeq htr hoob e hdes ?_)
      rw [hsl, hdH, show (madeHeader ps items).entries_checksum =
        crc64 (serializeEntries (madeEntries ps items)) from rfl]
      refine crc64_set_ne _ _ _ (by omega) hTb hb' ?_
      have h1 : (serializeEntries (madeEntries ps items)).getD (p - 64) 0 =
          (madeBytes ps items).getD p 0 := by
        rw [← htab, getD_slice _ 64 _ _ (by omega) (by omega),
          show 64 + (p - 64) = p from by omega]
      rw [h1]
      exact hne


/-- The one-file input whose freshly written archive is flipped in the C5
counterexample and witness. -/
def itemsC5 : List (List Nat × List Nat) := [([97], [120])]

set_option maxRecDepth 100000 in
/-- C5, counterexample: on a freshly written valid archive (first
conjunct) flipping byte 0 — inside the serialized header region — makes
`open` fail with `NotArchive`, not the claimed `CorruptedHeader`; and
flipping byte 72 — inside the entries-table region — makes the bincode
deserialization at src/v1.rs:133 fail and the `.unwrap()` panic, not the
claimed `CorruptedEntriesTable` error. -/
theorem C5_counterexample :
    FileArco.new 4096 (madeBytes 64 itemsC5) = .ok
      { file_offset := 128, page_size := 64,
        entries := madeEntries 64 itemsC5, map := madeBytes 64 itemsC5 } ∧
    FileArco.new 4096 ((madeBytes 64 itemsC5).set 0 71) = .err .NotArchive ∧
    FileArco.new 4096 ((madeBytes 64 itemsC5).set 72 255) = .panicked :=
  ⟨by decide, by decide, by decide⟩

set_option maxRecDepth 100000 in
theorem C5_flip_witness :
    ((0 : Nat) ≠ (madeBytes 64 itemsC5).getD 0 0) ∧
    (((0 : Nat) < 8 → FileArco.new 4096 ((madeBytes 64 itemsC5).set 0 0) =
      .err .NotArchive) ∧
    ((8 : Nat) ≤ 0 → (0 : Nat) < 16 →
      FileArco.new 4096 ((madeBytes 64 itemsC5).set 0 0) =
        .err .NotV1Archive) ∧
    ((16 : Nat) ≤ 0 → (0 : Nat) < 64 →
      FileArco.new 4096 ((madeBytes 64 itemsC5).set 0 0) =
        .err .CorruptedHeader) ∧
    ((64 : Nat) ≤ 0 →
      (0 : Nat) < 64 + (serializeEntries (madeEntries 64 itemsC5)).length →
      FileArco.new 4096 ((madeBytes 64 itemsC5).set 0 0) = .panicked ∨
      FileArco.new 4096 ((madeBytes 64 itemsC5).set 0 0) =
        .err .CorruptedEntriesTable)) :=
  ⟨by decide, C5_flip 4096 64 itemsC5 6 (by norm_num) (by norm_num) (by decide)
    (by decide) (by decide) (by decide) (by decide) (by decide) (by decide)
    0 0 (by norm_num) (by decide)⟩

end FA
